import Mathlib

/-!
Verification development for the alembic-migration service (`src/main.py`).

The Python code is shallowly embedded here.  Strings are modelled as
`List Char` (`Str`); one element of a Python `readlines()` result is a
`Line` (it keeps its trailing newline character, exactly as in Python).
Python string methods used by the source (`strip`, `split`, `replace`,
`lower`, `capitalize`, `startswith`, the `in` substring test) are defined
below, faithful to CPython semantics for the ASCII inputs this service
manipulates (full-Unicode case mapping is out of scope; the `lower` /
`capitalize` embeddings act on ASCII letters and leave other characters
unchanged, which agrees with CPython on every string appearing in this
development).
-/

set_option autoImplicit false

namespace AlembicMig

abbrev Str := List Char

/-- The single-quote character (used by the `__tablename__ = 'x'` lines). -/
def sqc : Char := Char.ofNat 39

/-- The newline character. -/
def nlc : Char := Char.ofNat 10

/-- Python `str.strip()` whitespace set (space, tab, newline, CR, VT, FF). -/
def pyIsSpace (c : Char) : Bool :=
  c = Char.ofNat 32 || c = Char.ofNat 9 || c = nlc || c = Char.ofNat 13 ||
  c = Char.ofNat 11 || c = Char.ofNat 12

/-- Left part of Python `str.strip()`. -/
def lstrip (s : Str) : Str := s.dropWhile pyIsSpace

/-- Right part of Python `str.strip()`. -/
def rstrip (s : Str) : Str := (s.reverse.dropWhile pyIsSpace).reverse

/-- Python `str.strip()`. -/
def strip (s : Str) : Str := rstrip (lstrip s)

/-- Helper for `splitOnChar`: first segment and the remaining segments. -/
def splitCh (c : Char) : Str → Str × List Str
  | [] => ([], [])
  | x :: r =>
    if x = c then ([], (splitCh c r).1 :: (splitCh c r).2)
    else (x :: (splitCh c r).1, (splitCh c r).2)

/-- Python `str.split(sep)` for a one-character separator
(always returns at least one segment). -/
def splitOnChar (c : Char) (s : Str) : List Str :=
  (splitCh c s).1 :: (splitCh c s).2

/-- Python `sep.join(parts)`. -/
def joinSep (sep : Str) : List Str → Str
  | [] => []
  | [x] => x
  | x :: y :: xs => x ++ sep ++ joinSep sep (y :: xs)

/-- Python substring test `pat in s`. -/
def containsSub (pat : Str) : Str → Bool
  | [] => pat.isPrefixOf ([] : Str)
  | s@(_ :: rest) => pat.isPrefixOf s || containsSub pat rest

/-- Helper for `replaceSub`; the fuel bounds the number of characters still
to be examined, so `fuel = s.length` gives the untruncated behaviour. -/
def replaceSubAux (pat sub : Str) : Nat → Str → Str
  | 0, s => s
  | _ + 1, [] => []
  | fuel + 1, c :: rest =>
    if pat.isPrefixOf (c :: rest) && 0 < pat.length then
      sub ++ replaceSubAux pat sub fuel ((c :: rest).drop pat.length)
    else
      c :: replaceSubAux pat sub fuel rest

/-- Python `str.replace(pat, sub)` for a non-empty `pat`
(left-to-right, non-overlapping). -/
def replaceSub (pat sub s : Str) : Str := replaceSubAux pat sub s.length s

/-- The 26 ASCII upper/lower case pairs. -/
def upperLowerMap : List (Char × Char) :=
  [('A', 'a'), ('B', 'b'), ('C', 'c'), ('D', 'd'), ('E', 'e'), ('F', 'f'),
   ('G', 'g'), ('H', 'h'), ('I', 'i'), ('J', 'j'), ('K', 'k'), ('L', 'l'),
   ('M', 'm'), ('N', 'n'), ('O', 'o'), ('P', 'p'), ('Q', 'q'), ('R', 'r'),
   ('S', 's'), ('T', 't'), ('U', 'u'), ('V', 'v'), ('W', 'w'), ('X', 'x'),
   ('Y', 'y'), ('Z', 'z')]

/-- ASCII lower-casing of one character (CPython `str.lower` on ASCII). -/
def lowerChar (c : Char) : Char :=
  ((upperLowerMap.find? (fun p => p.1 = c)).map (fun p => p.2)).getD c

/-- ASCII upper-casing of one character (CPython `str.upper` on ASCII). -/
def upperChar (c : Char) : Char :=
  ((upperLowerMap.find? (fun p => p.2 = c)).map (fun p => p.1)).getD c

/-- Python `str.lower()` (ASCII). -/
def pyLower (s : Str) : Str := s.map lowerChar

/-- Python `str.capitalize()` (ASCII): first character upper-cased,
the rest lower-cased. -/
def pyCapitalize : Str → Str
  | [] => []
  | c :: r => upperChar c :: r.map lowerChar

/-- A character matched by the regex class `[A-Za-z0-9_]`. -/
def isIdentChar (c : Char) : Bool :=
  (65 ≤ c.toNat && c.toNat ≤ 90) || (97 ≤ c.toNat && c.toNat ≤ 122) ||
  (48 ≤ c.toNat && c.toNat ≤ 57) || c = '_'

/-- A character matched by the regex class `[A-Za-z_]`. -/
def isIdentStartChar (c : Char) : Bool :=
  (65 ≤ c.toNat && c.toNat ≤ 90) || (97 ≤ c.toNat && c.toNat ≤ 122) || c = '_'

/-- Full match of the regex `^[A-Za-z_][A-Za-z0-9_]*$` (the strings this
validator receives are stripped first, so the end anchor is a plain
end-of-string test). -/
def isIdent : Str → Bool
  | [] => false
  | c :: r => isIdentStartChar c && r.all isIdentChar

/-! ## Request validators (src/main.py lines 38-244)

A pydantic `ValidationError` is modelled by `none`.  A validator that
returns a value is modelled by `some` of the normalised value. -/

/-- The allowed column types (`main.py` line 58). -/
def allowedTypes : List Str :=
  [("Integer").data, ("String").data, ("Float").data, ("Boolean").data,
   ("Date").data, ("Text").data]

/-- The allowed attribute keys (`main.py` lines 68-79).  Note that the set
contains the empty string, not the word `empty`. -/
def allowedAttributes : List Str :=
  [("primary_key").data, ("nullable").data, ("unique").data, ("index").data,
   ("default").data, ("server_default").data, ("autoincrement").data,
   ("foreign_key").data, ("comment").data, []]

/-- `ColumnDefinition.validate_name` (`main.py` lines 47-54):
`v.strip().replace(" ", "").lower()` then the identifier regex. -/
def ColumnDefinition.validate_name (v : Str) : Option Str :=
  if isIdent (((strip v).filter (fun c => ¬ c = ' ')).map lowerChar) then
    some (((strip v).filter (fun c => ¬ c = ' ')).map lowerChar)
  else none

/-- `ColumnDefinition.validate_type` (`main.py` lines 56-64):
`v.strip().split(",")[0].capitalize()` must be in `allowedTypes`. -/
def ColumnDefinition.validate_type (v : Str) : Option Str :=
  if pyCapitalize ((splitOnChar ',' (strip v)).headD []) ∈ allowedTypes then
    some (pyCapitalize ((splitOnChar ',' (strip v)).headD []))
  else none

/-- The key of one attribute fragment: `part.split("=")[0].strip()`
(`main.py` lines 86-87). -/
def attrKey (part : Str) : Str := strip ((splitOnChar '=' part).headD [])

/-- The string-input case of `ColumnDefinition.validate_attributes`
(`main.py` lines 83-94): split on commas, strip each part, require every
part's key to be an allowed attribute, re-join with `", "`. -/
def ColumnDefinition.validate_attributes (v : Str) : Option Str :=
  if ((splitOnChar ',' v).map strip).all (fun p => attrKey p ∈ allowedAttributes) then
    some (joinSep ((", ").data) ((splitOnChar ',' v).map strip))
  else none

/-- Input to the attributes validator: a string or a list of strings
(`main.py` line 67). -/
inductive AttrInput
  | str (s : Str)
  | list (l : List Str)
deriving DecidableEq

/-- The string the attributes validator actually examines: a list input is
first joined with `", "` (`main.py` lines 80-81). -/
def attrText : AttrInput → Str
  | .str s => s
  | .list l => joinSep ((", ").data) l

/-- `ColumnDefinition.validate_attributes` on either input shape. -/
def validateAttributesInput (v : AttrInput) : Option Str :=
  ColumnDefinition.validate_attributes (attrText v)

/-- The validated column record
(pydantic model `ColumnDefinition`, `main.py` lines 38-45). -/
structure ColumnDefinition where
  name : Str
  type : Str
  attributes : Option Str
deriving DecidableEq

/-- The raw (pre-validation) column payload; `attributes = none` means the
field was omitted, in which case pydantic keeps the default `None` without
running the validator. -/
structure RawColumn where
  name : Str
  type : Str
  attributes : Option AttrInput
deriving DecidableEq

/-- Field validation of one column of a `CreateTableRequest`. -/
def validateColumn (rc : RawColumn) : Option ColumnDefinition := do
  let n ← ColumnDefinition.validate_name rc.name
  let t ← ColumnDefinition.validate_type rc.type
  match rc.attributes with
  | none => pure ⟨n, t, none⟩
  | some ai =>
    let a ← validateAttributesInput ai
    pure ⟨n, t, some a⟩

/-- `CreateTableRequest.validate_table_name` (`main.py` lines 103-110):
`v.strip().replace(" ", "_").capitalize()` then the identifier regex. -/
def CreateTableRequest.validate_table_name (v : Str) : Option Str :=
  let v := pyCapitalize ((strip v).map (fun c => if c = ' ' then '_' else c))
  if isIdent v then some v else none

/-- The primary-key marker substring tested by `ensure_primary_key`. -/
def pkMarker : Str := ("primary_key=True").data

/-- `CreateTableRequest.ensure_primary_key` (`main.py` lines 112-116):
accepts the column list iff some column's attribute string contains
`primary_key=True` as a substring. -/
def CreateTableRequest.ensure_primary_key (v : List ColumnDefinition) :
    Option (List ColumnDefinition) :=
  if v.any (fun col => containsSub pkMarker (col.attributes.getD [])) then
    some v
  else none

/-- Full validation of a `CreateTableRequest` (table name validator, per
column validators, then the after-validator `ensure_primary_key`). -/
def validateCreateTableRequest (table_name : Str) (columns : List RawColumn) :
    Option (Str × List ColumnDefinition) := do
  let tn ← CreateTableRequest.validate_table_name table_name
  let cols ← columns.mapM validateColumn
  let cols ← CreateTableRequest.ensure_primary_key cols
  pure (tn, cols)

/-- `EditTableRequest.validate_table_name` (`main.py` lines 220-222):
only `v.capitalize()`, never a rejection. -/
def EditTableRequest.validate_table_name (v : Str) : Option Str :=
  some (pyCapitalize v)

/-- `DeleteTableRequest.validate_table_name` (`main.py` lines 242-244):
only `v.capitalize()`, never a rejection. -/
def DeleteTableRequest.validate_table_name (v : Str) : Option Str :=
  some (pyCapitalize v)

/-- `RenameTableRequest.validate_table_names` (`main.py` lines 229-236):
same normalisation and identifier regex as table creation. -/
def RenameTableRequest.validate_table_names (v : Str) : Option Str :=
  let v := pyCapitalize ((strip v).map (fun c => if c = ' ' then '_' else c))
  if isIdent v then some v else none

example : ColumnDefinition.validate_name ((" My Col ").data)
    = some (("mycol").data) := by decide
example : ColumnDefinition.validate_type (("integer, foo").data)
    = some (("Integer").data) := by decide
example : ColumnDefinition.validate_attributes (("primary_key=True ,nullable=False").data)
    = some (("primary_key=True, nullable=False").data) := by decide
example : ColumnDefinition.validate_attributes (("empty=True").data) = none := by decide
example : ColumnDefinition.validate_attributes (("default=").data)
    = some (("default=").data) := by decide
example : CreateTableRequest.validate_table_name ((" my users ").data)
    = some (("My_users").data) := by decide
example : isIdent (("a_b9").data) = true := by decide
example : isIdent (("9ab").data) = false := by decide

/-! ## The model file and its editor (src/main.py lines 525-549, 703-856,
1120-1144, 1245-1289)

The file is handled exactly as Python's `readlines()` leaves it: a list of
`Line`s, each keeping its trailing newline.  Every editor first reads the
file, mutates an in-memory list, and only writes at the very end, so each
operation is modelled as a function from the read lines to
`Except PyErr (List Line)`; the disk is unchanged whenever the result is an
error.  `FileLock`, `os.path` checks and `reload_models` have no bearing on
the properties below and are not modelled (the file is assumed present and
writable). -/

/-- One element of a Python `readlines()` result. -/
abbrev Line := Str

/-- Python exceptions the modelled code can raise. -/
inductive PyErr
  | httpExc (status : Nat)
  | indexError
  | valueError
deriving DecidableEq

/-- How the `edit_table` endpoint maps an exception to an HTTP status
(`main.py` lines 915-918: `HTTPException` is re-raised, anything else
becomes 500). -/
def edit_table_status : PyErr → Nat
  | .httpExc s => s
  | _ => 500

/-- How the `rename_table` endpoint maps an exception to an HTTP status
(`main.py` lines 1114-1117: `ValueError` becomes 404, anything else 500). -/
def rename_table_status : PyErr → Nat
  | .valueError => 404
  | .httpExc s => s
  | _ => 500

/-- The scan for `model_start` / `model_end` shared by
`edit_table_in_models` and `delete_table_from_models` (`main.py` lines
726-736 and 1257-1267): walk the lines, record the index of every line that
contains `class {table_name}` as a substring (later matches overwrite
earlier ones), and stop at the first blank line seen after a match. -/
def scanBlock (tn : Str) : List Line → Nat → Option Nat → Option Nat × Option Nat
  | [], _, ms => (ms, none)
  | l :: rest, i, ms =>
    let ms' := if containsSub (("class ").data ++ tn) l then some i else ms
    if ms'.isSome && strip l = [] then (ms', some i)
    else scanBlock tn rest (i + 1) ms'

/-- One generated column declaration line,
`    {name} = Column({type}{, attributes}?)\n`
(`main.py` lines 540-543 and 781-784 build exactly this string). -/
def columnLine (col : Str × Str × Str) : Line :=
  (("    ").data) ++ col.1 ++ ((" = Column(").data) ++ col.2.1 ++
  (if col.2.2 = [] then [] else ((", ").data) ++ col.2.2) ++ [')', nlc]

/-- The lines appended by `add_table_to_models` (`main.py` lines 537-543).
The first element contains the two leading newlines, exactly as the Python
string `"\n\nclass {t}(Base):\n"` does. -/
def newTableLines (table_name : Str) (columns : List (Str × Str × Str)) :
    List Line :=
  ([nlc, nlc] ++ (("class ").data) ++ table_name ++ (("(Base):").data) ++ [nlc]) ::
  ((("    __tablename__ = ").data) ++ [sqc] ++ pyLower table_name ++ [sqc, nlc]) ::
  columns.map columnLine

/-- `add_table_to_models` (`main.py` lines 525-549): reject with a 400 when
any line contains `class {table_name}` as a substring, otherwise append the
new class block. -/
def add_table_to_models (lines : List Line) (table_name : Str)
    (columns : List (Str × Str × Str)) : Except PyErr (List Line) :=
  if lines.any (fun l => containsSub ((("class ").data) ++ table_name) l) then
    .error (.httpExc 400)
  else
    .ok (lines ++ newTableLines table_name columns)

/-- Python `list.insert(pos, x)`: positions past the end append. -/
def pyInsert {α : Type} (pos : Nat) (x : α) : List α → List α
  | [] => [x]
  | a :: r =>
    match pos with
    | 0 => x :: a :: r
    | p + 1 => a :: pyInsert p x r

/-- The prefix a delete / edit entry is matched against:
`{col} = Column(`. -/
def colPrefix (col : Str) : Str := col ++ ((" = Column(").data)

/-- The primary-key scan of `edit_table_in_models` (lines 749-754): every
`(line, col)` pair with `lines[i].strip().startswith(f"{col} = Column(")`
and `"primary_key=True" in line`, for `i` in `[model_start, model_end)`. -/
def pkViolations (lines : List Line) (delete_columns : List Str)
    (ms me : Nat) : List Str :=
  (List.range' ms (me - ms)).flatMap (fun i =>
    let line := strip ((lines.get? i).getD [])
    delete_columns.filter (fun col =>
      (colPrefix col).isPrefixOf line && containsSub pkMarker line))

/-- The delete phase of `edit_table_in_models` (lines 763-774): keep a line
unless it is inside `[model_start, model_end)` and its strip starts with
some deleted column's prefix. -/
def deletePhase (lines : List Line) (delete_columns : List Str)
    (ms me : Nat) : List Line :=
  (lines.enum.filter (fun p =>
      ¬ (delete_columns.any (fun col => (colPrefix col).isPrefixOf (strip p.2)))
      ∨ p.1 < ms ∨ me ≤ p.1)).map (fun p => p.2)

/-- The add phase of `edit_table_in_models` (lines 778-787): insert each new
column line starting at position `model_end - 1`, advancing by one. -/
def addPhase (lines : List Line) (add_columns : List (Str × Str × Str))
    (me : Nat) : List Line :=
  (add_columns.foldl
    (fun st col => (pyInsert st.2 (columnLine col) st.1, st.2 + 1))
    (lines, me - 1)).1

/-- One entry of `edit_columns` after the endpoint dropped the `None`
values (`main.py` lines 866-879). -/
structure EditCol where
  name : Str
  new_name : Option Str := none
  new_type : Option Str := none
  new_attributes : Option Str := none
deriving DecidableEq

/-- Characters of `s` after the first occurrence of `c` (empty if `c` does
not occur): Python `s.split(c, 1)[1]` on strings that contain `c`. -/
def afterChar (c : Char) : Str → Str
  | [] => []
  | x :: r => if x = c then r else afterChar c r

/-- Python `s.rsplit(c, 1)[0]`: everything before the last occurrence of
`c`, or all of `s` if `c` does not occur. -/
def beforeLastChar (c : Char) (s : Str) : Str :=
  if c ∈ s then (afterChar c s.reverse).reverse else s

/-- Deduplication keeping first occurrences.  `edit_table_in_models` joins
`set(existing).union(new)` (line 823), whose iteration order CPython leaves
unspecified; this model fixes the first-occurrence order of
`existing ++ new`.  No claim in this development depends on that order. -/
def dedupFirstAux : Nat → List Str → List Str
  | 0, l => l
  | _ + 1, [] => []
  | fuel + 1, x :: r => x :: dedupFirstAux fuel (r.filter (fun y => ¬ y = x))

/-- Deduplication keeping first occurrences (the fuel never runs out
because filtering cannot lengthen the list). -/
def dedupFirst (l : List Str) : List Str := dedupFirstAux l.length l

/-- The rewrite of one found column line in the edit phase
(`main.py` lines 800-835), applied at index `i` of the buffer. -/
def applyEditAt (buf : List Line) (i : Nat) (e : EditCol) : List Line :=
  let line := strip ((buf.get? i).getD [])
  let current_attributes := beforeLastChar ')' (afterChar '(' line)
  let existing_type := strip ((splitOnChar ',' current_attributes).headD [])
  let existing_attrs :=
    match splitOnChar ',' current_attributes with
    | _ :: a :: rest => joinSep [','] (a :: rest)
    | _ => []
  let existing_attrs_list :=
    ((splitOnChar ',' existing_attrs).map strip).filter (fun a => ¬ a = [])
  let new_attrs_list :=
    ((splitOnChar ',' (e.new_attributes.getD [])).map strip).filter
      (fun a => ¬ a = [])
  let combined_attrs :=
    joinSep ((", ").data) (dedupFirst (existing_attrs_list ++ new_attrs_list))
  let final_type := e.new_type.getD existing_type
  let final_name :=
    match e.new_name with
    | some nn => if nn = [] then e.name else nn
    | none => e.name
  let new_column_line :=
    (("    ").data) ++ final_name ++ ((" = Column(").data) ++ final_type ++
    (if combined_attrs = [] then [] else ((", ").data) ++ combined_attrs) ++
    [')', nlc]
  buf.set i new_column_line

/-- The scan of the edit phase for one entry (`main.py` lines 797-844):
walk indices `model_start, model_start+1, ...` (the fuel is
`model_end - model_start`); an out-of-range access raises `IndexError`
(the buffer may have shrunk below the stale `model_end`), a match rewrites
that line, exhaustion raises a 404. -/
def editScanLoop (buf : List Line) (e : EditCol) :
    Nat → Nat → Except PyErr (List Line)
  | _, 0 => .error (.httpExc 404)
  | i, fuel + 1 =>
    match buf.get? i with
    | none => .error .indexError
    | some l =>
      if (colPrefix e.name).isPrefixOf (strip l) then .ok (applyEditAt buf i e)
      else editScanLoop buf e (i + 1) fuel

/-- The edit phase over all entries, sequentially on the evolving buffer
(`main.py` lines 790-844). -/
def editPhase (buf : List Line) (edit_columns : List EditCol) (ms me : Nat) :
    Except PyErr (List Line) :=
  edit_columns.foldlM (fun b e => editScanLoop b e ms (me - ms)) buf

/-- `edit_table_in_models` (`main.py` lines 703-856) on the read lines:
locate the block, check the primary-key deletions, then run the delete, add
and edit phases.  The temp-file write happens only on success. -/
def edit_table_in_models (lines : List Line) (table_name : Str)
    (add_columns : List (Str × Str × Str)) (edit_columns : List EditCol)
    (delete_columns : List Str) : Except PyErr (List Line) :=
  match scanBlock table_name lines 0 none with
  | (none, _) => .error (.httpExc 404)
  | (some ms, meOpt) =>
    let me := meOpt.getD lines.length
    if pkViolations lines delete_columns ms me = [] then
      editPhase (addPhase (deletePhase lines delete_columns ms me)
        add_columns me) edit_columns ms me
    else .error (.httpExc 400)

/-- Result of an editor call together with the resulting on-disk file: the
write is a single replace at the end of the function, so an error leaves
the disk exactly as it was read. -/
def runFileOp (lines : List Line) (r : Except PyErr (List Line)) :
    Except PyErr Unit × List Line :=
  match r with
  | .ok newLines => (.ok (), newLines)
  | .error e => (.error e, lines)

/-- `edit_table_in_models` together with the resulting disk state. -/
def editTableRun (lines : List Line) (table_name : Str)
    (add_columns : List (Str × Str × Str)) (edit_columns : List EditCol)
    (delete_columns : List Str) : Except PyErr Unit × List Line :=
  runFileOp lines
    (edit_table_in_models lines table_name add_columns edit_columns delete_columns)

/-- Match of `re.compile(rf"class\s+{old_name}\s*\(.*\):").match(line)`
(`main.py` line 1126) for an identifier `old_name`: the line starts with
`class`, at least one whitespace character, the old name, optional
whitespace, `(`, and `):`  somewhere later on the same physical line.
Because an identifier starts with a non-whitespace character, maximal-munch
whitespace scanning coincides with the regex's backtracking search. -/
def classPatMatch (old : Str) (line : Line) : Bool :=
  ("class").data.isPrefixOf line &&
  (let r := line.drop 5
   match r with
   | [] => false
   | ch :: _ =>
     pyIsSpace ch &&
     (let r1 := r.dropWhile pyIsSpace
      old.isPrefixOf r1 &&
      (let r2 := (r1.drop old.length).dropWhile pyIsSpace
       match r2 with
       | '(' :: r3 => containsSub [')', ':'] (r3.takeWhile (fun x => ¬ x = nlc))
       | _ => false)))

/-- Match of `re.compile(rf"__tablename__\s*=\s*'{old}'")` at the start of
`s` (`old` is already lower-cased by the caller). -/
def tnMatchAt (old : Str) (s : Str) : Bool :=
  (("__tablename__").data).isPrefixOf s &&
  (match (s.drop 13).dropWhile pyIsSpace with
   | '=' :: r2 => ([sqc] ++ old ++ [sqc]).isPrefixOf (r2.dropWhile pyIsSpace)
   | _ => false)

/-- `tablename_pattern.search(line)` (`main.py` line 1136): the pattern
matches at some position of the line. -/
def tnSearch (old : Str) : Line → Bool
  | [] => false
  | s@(_ :: rest) => tnMatchAt old s || tnSearch old rest

/-- The per-line rewrite of `rename_table_in_models` (`main.py` lines
1132-1137).  Both branches read the original line, and the loop body
assigns `lines[i]` once per matching test, so on a line matching both
patterns only the `__tablename__` replacement survives. -/
def renameLine (old new : Str) (line : Line) : Line :=
  if tnSearch (pyLower old) line then
    replaceSub (pyLower old) (pyLower new) line
  else if classPatMatch old line then replaceSub old new line
  else line

/-- `rename_table_in_models` (`main.py` lines 1120-1144): a `ValueError`
(hence 404) unless both patterns matched at least one line; the file is
written only after that check. -/
def rename_table_in_models (lines : List Line) (old_name new_name : Str) :
    Except PyErr (List Line) :=
  if lines.any (classPatMatch old_name) && lines.any (tnSearch (pyLower old_name)) then
    .ok (lines.map (renameLine old_name new_name))
  else .error .valueError

/-- `rename_table_in_models` together with the resulting disk state. -/
def renameTableRun (lines : List Line) (old_name new_name : Str) :
    Except PyErr Unit × List Line :=
  runFileOp lines (rename_table_in_models lines old_name new_name)

/-- `delete_table_from_models` (`main.py` lines 1245-1289): locate the
block as in `edit_table_in_models`, then delete
`lines[model_start : model_end + 1]`. -/
def delete_table_from_models (lines : List Line) (table_name : Str) :
    Except PyErr (List Line) :=
  match scanBlock table_name lines 0 none with
  | (none, _) => .error (.httpExc 404)
  | (some ms, meOpt) =>
    let me := meOpt.getD lines.length
    .ok (lines.take ms ++ lines.drop (me + 1))

/-- A sample on-disk model file used in the sanity checks below. -/
def fileA : List Line :=
  [(("class A(Base):").data) ++ [nlc],
   (("    id = Column(Integer, primary_key=True)").data) ++ [nlc],
   (("    x = Column(String)").data) ++ [nlc]]

example : scanBlock (("A").data) fileA 0 none = (some 0, none) := by decide
example : editTableRun fileA (("A").data) [] [] [("id").data]
    = (.error (.httpExc 400), fileA) := by rfl
example : editTableRun fileA (("A").data) [] [] [("x").data]
    = (.ok (),
       [(("class A(Base):").data) ++ [nlc],
        (("    id = Column(Integer, primary_key=True)").data) ++ [nlc]]) := by
  rfl

/-! ## Endpoint flows and migration-driver invocations (src/main.py lines
477-521, 859-918, 1091-1117, 1291-1305)

`run_migrations("upgrade")` and `generate_migration(...)` call the external
migration tool; their outcomes are not determined by the model file, so the
traces below record the invocations a request performs on the path where
the external tool succeeds.  The trailing `reload_models` /
`parse_models_file` steps of an endpoint perform no migration-tool call and
can only fail after the whole trace has already been emitted, so they do
not affect the traces. -/

/-- One invocation of the migration driver. -/
inductive MigCall
  | upgrade
  | autogenerate
deriving DecidableEq

/-- The `create_table` endpoint (`main.py` lines 477-521): the file edit,
then `run_migrations("upgrade")`, `generate_migration(...)`,
`run_migrations("upgrade")`.  Its `except Exception` turns every failure,
including the editor's `HTTPException(400)`, into a 500. -/
def create_table (lines : List Line) (table_name : Str)
    (columns : List (Str × Str × Str)) :
    Except Nat (List Line) × List MigCall :=
  match add_table_to_models lines table_name columns with
  | .error _ => (.error 500, [])
  | .ok newLines =>
    (.ok newLines, [MigCall.upgrade] ++ [MigCall.autogenerate] ++ [MigCall.upgrade])

/-- The `edit_table` endpoint (`main.py` lines 859-918): the file edit,
then `generate_migration(...)` and a single `run_migrations("upgrade")`.
`HTTPException`s re-raise with their own status, others become 500. -/
def edit_table (lines : List Line) (table_name : Str)
    (add_columns : List (Str × Str × Str)) (edit_columns : List EditCol)
    (delete_columns : List Str) : Except Nat (List Line) × List MigCall :=
  match edit_table_in_models lines table_name add_columns edit_columns
      delete_columns with
  | .error e => (.error (edit_table_status e), [])
  | .ok newLines => (.ok newLines, [MigCall.autogenerate] ++ [MigCall.upgrade])

/-- The `rename_table` endpoint (`main.py` lines 1091-1117): the file edit,
then `run_migrations("upgrade")`, `generate_migration(...)`,
`run_migrations("upgrade")`; a `ValueError` from the editor becomes 404. -/
def rename_table (lines : List Line) (old_name new_name : Str) :
    Except Nat (List Line) × List MigCall :=
  match rename_table_in_models lines old_name new_name with
  | .error e => (.error (rename_table_status e), [])
  | .ok newLines =>
    (.ok newLines, [MigCall.upgrade] ++ [MigCall.autogenerate] ++ [MigCall.upgrade])

/-- The `delete_table` endpoint (`main.py` lines 1291-1305): the file edit,
then `run_migrations("upgrade")`, `generate_migration(...)`,
`run_migrations("upgrade")`; every failure becomes 500. -/
def delete_table (lines : List Line) (table_name : Str) :
    Except Nat (List Line) × List MigCall :=
  match delete_table_from_models lines table_name with
  | .error _ => (.error 500, [])
  | .ok newLines =>
    (.ok newLines, [MigCall.upgrade] ++ [MigCall.autogenerate] ++ [MigCall.upgrade])

/-- Number of upgrade invocations in a trace. -/
def upgradeCount (t : List MigCall) : Nat :=
  (t.filter (fun c => c = MigCall.upgrade)).length

/-! ## The model-file parser (src/main.py lines 1174-1242)

`parse_models_file` feeds the whole file to `ast.parse` and walks the
resulting tree.  The embedding below parses the class-per-table sublanguage
in which this service keeps its table declarations (blank lines, top-level
`class N(Base):` headers, and indented `name = expr` assignments whose
expressions are built from plain identifiers, `True` / `False` / `None`,
single-quoted strings and calls of those).  On this sublanguage it agrees
with CPython's parser, including the syntax errors CPython raises on
malformed keyword arguments, on reserved words in identifier position and
on unterminated strings; `none` models `parse_models_file` raising. -/

/-- Python's reserved words (a `SyntaxError` in identifier position). -/
def pyKeywords : List Str :=
  [("False").data, ("None").data, ("True").data, ("and").data, ("as").data,
   ("assert").data, ("async").data, ("await").data, ("break").data,
   ("class").data, ("continue").data, ("def").data, ("del").data,
   ("elif").data, ("else").data, ("except").data, ("finally").data,
   ("for").data, ("from").data, ("global").data, ("if").data,
   ("import").data, ("in").data, ("is").data, ("lambda").data,
   ("nonlocal").data, ("not").data, ("or").data, ("pass").data,
   ("raise").data, ("return").data, ("try").data, ("while").data,
   ("with").data, ("yield").data]

/-- The keyword constants, parsed as `ast.Constant` nodes whose `str()`
rendering is their own spelling. -/
def constNames : List Str := [("True").data, ("False").data, ("None").data]

/-- The expression shapes `parse_models_file` distinguishes.  `const`
stores the `str()` rendering of the constant's value (`kw.value.s`), which
is the spelling for `True` / `False` / `None` and the unquoted text for a
string literal. -/
inductive PyExpr
  | name (id : Str)
  | const (sval : Str)
  | call (func : Str) (args : List PyExpr) (keywords : List (Str × PyExpr))

/-- One parsed class body: the assignment targets with their expressions. -/
structure PyClass where
  name : Str
  body : List (Str × PyExpr)

/-- One entry of the inventory `parse_models_file` returns. -/
structure PColumn where
  name : Str
  type : Str
  attributes : Str
deriving DecidableEq

/-- One table of the inventory `parse_models_file` returns. -/
structure PTable where
  table_name : Str
  columns : List PColumn
deriving DecidableEq

/-- Longest identifier prefix of `s` (Python NAME token), with the rest. -/
def takeIdent (s : Str) : Option (Str × Str) :=
  match s with
  | [] => none
  | c :: r =>
    if isIdentStartChar c then
      some (c :: r.takeWhile isIdentChar, r.dropWhile isIdentChar)
    else none

/-- Skip the space characters the generated sublanguage uses between
tokens. -/
def skipSp (s : Str) : Str := s.dropWhile (fun c => c = ' ')

/-- Parse one atom: an identifier (a reserved word is a syntax error,
except `True` / `False` / `None` which are constants) or a single-quoted
string literal. -/
def parseAtom (s : Str) : Option (PyExpr × Str) :=
  match takeIdent s with
  | some (id, r) =>
    if id ∈ constNames then some (.const id, r)
    else if id ∈ pyKeywords then none
    else some (.name id, r)
  | none =>
    match s with
    | q :: r =>
      if q = sqc then
        match r.dropWhile (fun c => ¬ c = sqc) with
        | _ :: r2 => some (.const (r.takeWhile (fun c => ¬ c = sqc)), r2)
        | [] => none
      else none
    | [] => none

/-- Resolution of a bare identifier in argument position. -/
def resolvePositional (id : Str) (r : Str) :
    Option ((PyExpr ⊕ (Str × PyExpr)) × Str) :=
  if id ∈ constNames then some (.inl (.const id), r)
  else if id ∈ pyKeywords then none
  else some (.inl (.name id), r)

/-- Parse one argument: `ident=atom` (a keyword argument; a reserved word
as the keyword name is a syntax error), a bare identifier, or an atom. -/
def parseArgItem (s : Str) : Option ((PyExpr ⊕ (Str × PyExpr)) × Str) :=
  match takeIdent s with
  | some (id, r) =>
    match r with
    | c :: rv =>
      if c = '=' then
        if id ∈ pyKeywords then none
        else
          match parseAtom rv with
          | some (v, r2) => some (.inr (id, v), r2)
          | none => none
      else resolvePositional id (c :: rv)
    | [] => resolvePositional id []
  | none =>
    match parseAtom s with
    | some (pe, r) => some (.inl pe, r)
    | none => none

/-- Continue an argument list after one parsed item: `)` closes the call,
`,` continues; a positional argument after a keyword argument is a syntax
error, as in CPython. -/
def argStep (item : PyExpr ⊕ (Str × PyExpr))
    (next : Option (List PyExpr × List (Str × PyExpr) × Str)) (r : Str) :
    Option (List PyExpr × List (Str × PyExpr) × Str) :=
  match item with
  | .inl pe =>
    match next with
    | some (as2, ks2, r5) => some (pe :: as2, ks2, r5)
    | none =>
      match r with
      | c :: r4 => if c = ')' then some ([pe], [], r4) else none
      | [] => none
  | .inr kv =>
    match next with
    | some (as2, ks2, r5) =>
      match as2 with
      | [] => some ([], kv :: ks2, r5)
      | _ :: _ => none
    | none =>
      match r with
      | c :: r4 => if c = ')' then some ([], [kv], r4) else none
      | [] => none

/-- Parse the argument list of a call, starting just after `(`; returns the
positional arguments, the keyword arguments and the text after `)`. -/
def parseArgsLoop : Nat → Str → Option (List PyExpr × List (Str × PyExpr) × Str)
  | 0, _ => none
  | fuel + 1, s =>
    match parseArgItem (skipSp s) with
    | none => none
    | some (it, r2) =>
      match skipSp r2 with
      | [] => none
      | c :: r4 =>
        if c = ')' then argStep it none (c :: r4)
        else if c = ',' then argStep it (parseArgsLoop fuel r4) (c :: r4)
        else none

/-- Parse the right-hand side of an assignment: an atom or a call of a
plain identifier. -/
def parseExpr (s : Str) : Option (PyExpr × Str) :=
  match takeIdent s with
  | some (f, r) =>
    match r with
    | c :: r2 =>
      if c = '(' then
        if f ∈ pyKeywords then none
        else
          match parseArgsLoop (r2.length + 1) r2 with
          | some (args, kws, rest) => some (.call f args kws, rest)
          | none => none
      else
        if f ∈ constNames then some (.const f, c :: r2)
        else if f ∈ pyKeywords then none
        else some (.name f, c :: r2)
    | [] =>
      if f ∈ constNames then some (.const f, [])
      else if f ∈ pyKeywords then none
      else some (.name f, [])
  | none => parseAtom s

/-- Parse one indented `target = expr` body line. -/
def parseAssign (line : Str) : Option (Str × PyExpr) :=
  match takeIdent (skipSp line) with
  | none => none
  | some (tgt, r) =>
    if tgt ∈ pyKeywords then none
    else
      match skipSp r with
      | [] => none
      | c :: r2 =>
        if c = '=' then
          match parseExpr (skipSp r2) with
          | some (e, rest) => if skipSp rest = [] then some (tgt, e) else none
          | none => none
        else none

/-- Parse a `class N(Base):` header line. -/
def parseClassHeader (line : Str) : Option Str :=
  if (("class ").data).isPrefixOf line then
    match takeIdent (line.drop 6) with
    | some (n, r) =>
      if n ∈ pyKeywords then none
      else if r = (("(Base):").data) then some n else none
    | none => none
  else none

/-- Parser state: the classes already closed, and the class whose body is
still open (a following indented line extends it, a following header
closes it). -/
abbrev PMState := List PyClass × Option PyClass

/-- Processing of one logical line: blank lines are skipped (a blank line
does not end a class body for `ast.parse`), an indented line must be an
assignment inside an open class, and a top-level line must be a class
header. -/
def parseModuleStep (st : PMState) (l : Str) : Option PMState :=
  if strip l = [] then some st
  else
    match l with
    | [] => some st
    | c :: _ =>
      if c = ' ' then
        match st.2 with
        | some cls =>
          (parseAssign l).map (fun a => (st.1, some ⟨cls.name, cls.body ++ [a]⟩))
        | none => none
      else
        match parseClassHeader l with
        | some n => some (st.1 ++ st.2.toList, some ⟨n, []⟩)
        | none => none

/-- Parse the module: a sequence of class blocks separated by blank
lines. -/
def parseModule (lines : List Str) : Option (List PyClass) :=
  (lines.foldlM parseModuleStep ([], none)).map (fun st => st.1 ++ st.2.toList)

/-- The `str()` rendering of a keyword argument's value used at
`main.py` lines 1215-1225 (`ast.Constant` → its value, `ast.Name` → its
id).  The `ast.dump` fallback for other shapes is unreachable in the
sublanguage, whose keyword values are atoms. -/
def renderKwValue : PyExpr → Str
  | .const s => s
  | .name id => id
  | .call f _ _ => (("Call:").data) ++ f

/-- The inventory extraction of `parse_models_file` (`main.py` lines
1182-1240) on the parsed classes: lower-case the class name, skip
`__tablename__`, take the called constructor's name as the type (looking
through a `Column` wrapper to its first `Name` positional argument), and
render the keyword arguments as `key=value` fragments joined by `", "`;
a non-call assignment yields an `UnknownType` column. -/
def tablesOfModule (m : List PyClass) : List PTable :=
  m.map (fun cls =>
    { table_name := pyLower cls.name
      columns := cls.body.filterMap (fun st =>
        if st.1 = (("__tablename__").data) then none
        else
          match st.2 with
          | .call f args kws =>
            let col_type :=
              if f = (("Column").data) then
                (args.findSome? (fun a =>
                  match a with
                  | .name id => some id
                  | _ => none)).getD (("Column").data)
              else f
            some { name := st.1, type := col_type,
                   attributes := joinSep ((", ").data)
                     (kws.map (fun kw => kw.1 ++ '=' :: renderKwValue kw.2)) }
          | _ =>
            some { name := st.1, type := ("UnknownType").data,
                   attributes := [] }) })

/-- `parse_models_file` on the raw file text; `none` models the
`ast.parse` call raising a `SyntaxError`. -/
def parse_models_file_text (t : Str) : Option (List PTable) :=
  (parseModule (splitOnChar nlc t)).map tablesOfModule

/-- Helper for `readLines`; the fuel bounds the number of lines, so
`fuel = s.length` gives the untruncated behaviour (every line holds at
least one character). -/
def readLinesAux : Nat → Str → List Str
  | _, [] => []
  | 0, s => [s]
  | fuel + 1, s@(_ :: r) =>
    (s.takeWhile (fun c => ¬ c = nlc) ++ (if nlc ∈ s then [nlc] else [])) ::
    readLinesAux fuel (r.drop (s.takeWhile (fun c => ¬ c = nlc)).length)

/-- Split a text into `readlines()` lines (each keeps its newline; a final
fragment without a newline is its own last line). -/
def readLines (s : Str) : List Str := readLinesAux s.length s

/-- `file.writelines`: concatenate. -/
def writeLines (ls : List Str) : Str := ls.flatten

/-- `add_table_to_models` at the level of the file text: `readlines`, the
duplicate check, then `writelines` of the old lines plus the new block. -/
def add_table_text (text : Str) (table_name : Str)
    (columns : List (Str × Str × Str)) : Except PyErr Str :=
  match add_table_to_models (readLines text) table_name columns with
  | .error e => .error e
  | .ok newLines => .ok (writeLines newLines)

example :
    parse_models_file_text
      (writeLines (newTableLines (("Users").data)
        [(("id").data, ("Integer").data, ("primary_key=True").data),
         (("email").data, ("String").data, [])]))
    = some [⟨("users").data,
        [⟨("id").data, ("Integer").data, ("primary_key=True").data⟩,
         ⟨("email").data, ("String").data, []⟩]⟩] := by rfl

example :
    parse_models_file_text
      (writeLines (newTableLines (("Users").data)
        [(("id").data, ("Integer").data, ("primary_key=True").data),
         (("x").data, ("String").data, ("default=").data)]))
    = none := by rfl
example : strip ((" a b ").data) = (("a b").data) := by rfl
example : splitOnChar ',' (("a,b,").data) = [("a").data, ("b").data, []] := by rfl
example : containsSub (("class Ff").data) (("class Fff(Base):").data) = true := by decide
example : replaceSub (("b").data) (("c").data) (("__tablename__ = b").data)
    = (("__ta").data ++ ("clename__ = c").data) := by rfl
example : pyCapitalize (("tABLE").data) = (("Table").data) := by rfl
example : pyLower (("UsErS").data) = (("users").data) := by rfl

end AlembicMig

namespace AlembicMig

/-! ## Claim theorems -/

/-- C9: the duplicate check of `add_table` is a substring match on lines:
for every file state and every table name `T`, the operation fails with a
400 conflict whenever some line contains `class T` as a substring, so a
name that is a prefix of an existing class name is rejected as a duplicate
even though no class named exactly `T` exists. -/
theorem add_table_duplicate_substring_conflict
    (lines : List Line) (table_name : Str) (columns : List (Str × Str × Str))
    (h : ∃ l ∈ lines, containsSub ((("class ").data) ++ table_name) l = true) :
    add_table_to_models lines table_name columns = .error (.httpExc 400) := by
  obtain ⟨l, hl, hc⟩ := h
  unfold add_table_to_models
  rw [if_pos]
  exact List.any_eq_true.mpr ⟨l, hl, hc⟩

/-- Witness for C9, at the file of the repository's own `models.py`:
adding table `Ff` while `class Fff(Base):` exists is rejected. -/
theorem add_table_duplicate_substring_conflict_witness :
    add_table_to_models [(("class Fff(Base):").data) ++ [nlc]] (("Ff").data)
      [(("a").data, ("Integer").data, ("primary_key=True").data)]
    = .error (.httpExc 400) :=
  add_table_duplicate_substring_conflict _ _ _
    ⟨(("class Fff(Base):").data) ++ [nlc], by decide, by decide⟩

/-- C10: the `table_name` validators of `edit_table` and `delete_table`
requests only capitalize and never reject: every string is accepted, even
strings that fail the identifier grammar enforced by the creation and
rename validators. -/
theorem edit_delete_table_name_validator_accepts_everything :
    (∀ v : Str,
      EditTableRequest.validate_table_name v = some (pyCapitalize v) ∧
      DeleteTableRequest.validate_table_name v = some (pyCapitalize v)) ∧
    (∃ v : Str,
      CreateTableRequest.validate_table_name v = none ∧
      RenameTableRequest.validate_table_names v = none ∧
      EditTableRequest.validate_table_name v = some (pyCapitalize v) ∧
      DeleteTableRequest.validate_table_name v = some (pyCapitalize v)) := by
  refine ⟨fun v => ⟨rfl, rfl⟩, ⟨(("9 x!").data), by decide, by decide, rfl, rfl⟩⟩

/-- Counterexample for C3: a request whose columns are individually valid
and in which two columns carry the primary-key marker passes full
validation, so "a request with more than one primary-key-marked column is
not accepted" is false. -/
theorem create_table_two_primary_keys_accepted :
    validateCreateTableRequest (("Users").data)
      [⟨(("a").data), (("Integer").data), some (.str (("primary_key=True").data))⟩,
       ⟨(("b").data), (("Integer").data), some (.str (("primary_key=True").data))⟩]
    = some ((("Users").data),
       [⟨(("a").data), (("Integer").data), some (("primary_key=True").data)⟩,
        ⟨(("b").data), (("Integer").data), some (("primary_key=True").data)⟩]) ∧
    (([⟨(("a").data), (("Integer").data), some (("primary_key=True").data)⟩,
       ⟨(("b").data), (("Integer").data), some (("primary_key=True").data)⟩] :
        List ColumnDefinition).filter
      (fun c => containsSub pkMarker (c.attributes.getD []))).length = 2 := by
  exact ⟨by rfl, by decide⟩

/-- C3 (amended): for a request whose table name and columns individually
validate, full validation succeeds iff at least one validated column's
attribute string contains the `primary_key=True` marker; any number of
marker-carrying columns (one or more) is accepted. -/
theorem create_table_validation_requires_some_primary_key
    (table_name : Str) (columns : List RawColumn) (tn : Str)
    (cols : List ColumnDefinition)
    (h1 : CreateTableRequest.validate_table_name table_name = some tn)
    (h2 : columns.mapM validateColumn = some cols) :
    validateCreateTableRequest table_name columns = some (tn, cols) ↔
      cols.any (fun c => containsSub pkMarker (c.attributes.getD [])) = true := by
  have hstep : validateCreateTableRequest table_name columns
      = (CreateTableRequest.ensure_primary_key cols).bind (fun c => some (tn, c)) := by
    unfold validateCreateTableRequest
    rw [h1]
    simp only [Option.bind_eq_bind, Option.some_bind, Option.pure_def]
    rw [h2]
    simp only [Option.some_bind]
  rw [hstep]
  unfold CreateTableRequest.ensure_primary_key
  split
  case isTrue h =>
    simp only [Option.some_bind]
    exact iff_of_true trivial h
  case isFalse h =>
    simp only [Option.none_bind]
    exact iff_of_false (by simp) h

/-- Witness for C3: a one-primary-key request validates, a zero-primary-key
request does not. -/
theorem create_table_validation_requires_some_primary_key_witness :
    validateCreateTableRequest (("Users").data)
      [⟨(("id").data), (("Integer").data), some (.str (("primary_key=True").data))⟩]
    = some ((("Users").data),
       [⟨(("id").data), (("Integer").data), some (("primary_key=True").data)⟩]) ∧
    ¬ validateCreateTableRequest (("Users").data)
        [⟨(("id").data), (("Integer").data), some (.str (("nullable=False").data))⟩]
      = some ((("Users").data),
         [⟨(("id").data), (("Integer").data), some (("nullable=False").data)⟩]) := by
  constructor
  · exact (create_table_validation_requires_some_primary_key _ _ _ _
      (by decide) (by decide)).mpr (by decide)
  · intro hcon
    have h := (create_table_validation_requires_some_primary_key
      (("Users").data)
      [⟨(("id").data), (("Integer").data), some (.str (("nullable=False").data))⟩]
      (("Users").data)
      [⟨(("id").data), (("Integer").data), some (("nullable=False").data)⟩]
      (by decide) (by decide)).mp hcon
    exact absurd h (by decide)

/-- Counterexample for C7: the allowed-key set contains the empty string,
not the word `empty`: a fragment whose key is literally `empty` is
rejected, while a fragment with an empty key is accepted. -/
theorem validate_attributes_empty_key_counterexample :
    ColumnDefinition.validate_attributes ((("empty=True").data)) = none ∧
    ColumnDefinition.validate_attributes ((("primary_key=True,").data))
      = some ((("primary_key=True, ").data)) := by
  exact ⟨by decide, by decide⟩

/-- C7 (amended): for every string-or-list attribute input, the validator
splits the (joined) input on commas and succeeds iff every fragment's key
(the stripped text before `=`) lies in the fixed allowed set
{primary_key, nullable, unique, index, default, server_default,
autoincrement, foreign_key, comment, ""} — the empty string, not the word
`empty`, is the tenth member. -/
theorem validate_attributes_allowed_key_criterion (v : AttrInput) :
    (validateAttributesInput v).isSome = true ↔
      ∀ p ∈ (splitOnChar ',' (attrText v)).map strip,
        attrKey p ∈ allowedAttributes := by
  unfold validateAttributesInput ColumnDefinition.validate_attributes
  split
  case isTrue h =>
    simp only [Option.isSome_some, true_iff]
    intro p hp
    exact of_decide_eq_true (List.all_eq_true.mp h p hp)
  case isFalse h =>
    simp only [Option.isSome_none, Bool.false_eq_true, false_iff]
    intro hcon
    exact h (List.all_eq_true.mpr (fun p hp => decide_eq_true (hcon p hp)))

/-- Counterexample for C4: a successful `edit_table` request performs a
single upgrade invocation, after the autogenerate step — not two. -/
theorem edit_table_single_upgrade_counterexample :
    edit_table fileA (("A").data) [] [] [("x").data]
      = (.ok [(("class A(Base):").data) ++ [nlc],
              (("    id = Column(Integer, primary_key=True)").data) ++ [nlc]],
         [MigCall.autogenerate, MigCall.upgrade]) ∧
    upgradeCount [MigCall.autogenerate, MigCall.upgrade] = 1 := by
  exact ⟨by rfl, by rfl⟩

/-- C4 (amended): on success, `add_table`, `rename_table` and
`delete_table` invoke the migration upgrade command exactly twice, once
before the autogenerate step and once after it; `edit_table` invokes it
exactly once, after the autogenerate step. -/
theorem structural_endpoints_upgrade_trace :
    (∀ lines tn cols res tr, create_table lines tn cols = (.ok res, tr) →
      tr = [MigCall.upgrade, MigCall.autogenerate, MigCall.upgrade]) ∧
    (∀ lines old new res tr, rename_table lines old new = (.ok res, tr) →
      tr = [MigCall.upgrade, MigCall.autogenerate, MigCall.upgrade]) ∧
    (∀ lines tn res tr, delete_table lines tn = (.ok res, tr) →
      tr = [MigCall.upgrade, MigCall.autogenerate, MigCall.upgrade]) ∧
    (∀ lines tn addC editC delC res tr,
      edit_table lines tn addC editC delC = (.ok res, tr) →
      tr = [MigCall.autogenerate, MigCall.upgrade]) := by
  refine ⟨?_, ?_, ?_, ?_⟩
  · intro lines tn cols res tr h
    unfold create_table at h
    cases hop : add_table_to_models lines tn cols with
    | error e => rw [hop] at h; simp at h
    | ok nl => rw [hop] at h; injection h with h1 h2; exact h2.symm
  · intro lines old new res tr h
    unfold rename_table at h
    cases hop : rename_table_in_models lines old new with
    | error e => rw [hop] at h; simp at h
    | ok nl => rw [hop] at h; injection h with h1 h2; exact h2.symm
  · intro lines tn res tr h
    unfold delete_table at h
    cases hop : delete_table_from_models lines tn with
    | error e => rw [hop] at h; simp at h
    | ok nl => rw [hop] at h; injection h with h1 h2; exact h2.symm
  · intro lines tn addC editC delC res tr h
    unfold edit_table at h
    cases hop : edit_table_in_models lines tn addC editC delC with
    | error e => rw [hop] at h; simp at h
    | ok nl => rw [hop] at h; injection h with h1 h2; exact h2.symm

/-- A well-formed two-line model file (class header plus tablename line)
used by several witnesses. -/
def fileR : List Line :=
  [(("class A(Base):").data) ++ [nlc],
   (("    __tablename__ = ").data) ++ [sqc] ++ (("a").data) ++ [sqc, nlc]]

/-- Witness for C4: concrete successful runs of all four endpoints, with
the traces obtained through the theorem. -/
theorem structural_endpoints_upgrade_trace_witness :
    ((create_table [] (("Users").data)
        [(("id").data, ("Integer").data, ("primary_key=True").data)]).2
      = [MigCall.upgrade, MigCall.autogenerate, MigCall.upgrade]) ∧
    ((rename_table fileR (("A").data) (("B").data)).2
      = [MigCall.upgrade, MigCall.autogenerate, MigCall.upgrade]) ∧
    ((delete_table fileA (("A").data)).2
      = [MigCall.upgrade, MigCall.autogenerate, MigCall.upgrade]) ∧
    ((edit_table fileA (("A").data) [] [] [(("x").data)]).2
      = [MigCall.autogenerate, MigCall.upgrade]) := by
  refine ⟨?_, ?_, ?_, ?_⟩
  · exact structural_endpoints_upgrade_trace.1 [] (("Users").data)
      [(("id").data, ("Integer").data, ("primary_key=True").data)]
      ([] ++ newTableLines (("Users").data)
        [(("id").data, ("Integer").data, ("primary_key=True").data)])
      _ (by rfl)
  · exact structural_endpoints_upgrade_trace.2.1 fileR (("A").data) (("B").data)
      (fileR.map (renameLine (("A").data) (("B").data))) _ (by rfl)
  · exact structural_endpoints_upgrade_trace.2.2.1 fileA (("A").data)
      ([] : List Line) _ (by rfl)
  · exact structural_endpoints_upgrade_trace.2.2.2 fileA (("A").data) [] []
      [(("x").data)]
      [(("class A(Base):").data) ++ [nlc],
       (("    id = Column(Integer, primary_key=True)").data) ++ [nlc]]
      _ (by rfl)

/-- The pathological single-line file of the C5 counterexample: the class
header and the `__tablename__` attribute share one line. -/
def c5line : Line :=
  (("class Users(Base): __tablename__ = ").data) ++ [sqc] ++
  (("users").data) ++ [sqc, nlc]

/-- The line written back by renaming `Users` to `Admin` in `[c5line]`. -/
def c5lineRes : Line :=
  (("class Users(Base): __tablename__ = ").data) ++ [sqc] ++
  (("admin").data) ++ [sqc, nlc]

/-- Counterexample for C5: on a line matching both patterns the tablename
replacement overwrites the class-header replacement, so the rename
succeeds (both patterns matched) yet the written file still declares
`class Users` and contains `Admin` nowhere. -/
theorem rename_class_header_kept_counterexample :
    [c5line].any (classPatMatch (("Users").data)) = true ∧
    [c5line].any (tnSearch (pyLower (("Users").data))) = true ∧
    renameTableRun [c5line] (("Users").data) (("Admin").data)
      = (.ok (), [c5lineRes]) ∧
    containsSub (("class Users").data) c5lineRes = true ∧
    containsSub (("Admin").data) c5lineRes = false := by
  exact ⟨by decide, by decide, by rfl, by decide, by decide⟩

/-- C5 (amended): renaming fails with `ValueError` (reported as 404) and
leaves the file unchanged unless the class pattern and the tablename
pattern each match at least one line; when both match, every line matching
the tablename pattern has the lower-cased old name replaced by the
lower-cased new name and every remaining line matching the class pattern
has the old name replaced by the new name (`renameLine`) — a line matching
both patterns receives only the tablename replacement. -/
theorem rename_table_pattern_rewrite (lines : List Line) (old new : Str) :
    (¬ (lines.any (classPatMatch old) = true ∧
        lines.any (tnSearch (pyLower old)) = true) →
      renameTableRun lines old new = (.error .valueError, lines) ∧
      rename_table_status .valueError = 404) ∧
    (lines.any (classPatMatch old) = true →
     lines.any (tnSearch (pyLower old)) = true →
      renameTableRun lines old new = (.ok (), lines.map (renameLine old new))) := by
  constructor
  · intro hn
    have hcond : ¬ ((lines.any (classPatMatch old) &&
        lines.any (tnSearch (pyLower old))) = true) := by
      rw [Bool.and_eq_true]; exact hn
    unfold renameTableRun rename_table_in_models
    rw [if_neg hcond]
    exact ⟨rfl, rfl⟩
  · intro h1 h2
    have hcond : (lines.any (classPatMatch old) &&
        lines.any (tnSearch (pyLower old))) = true := by
      rw [Bool.and_eq_true]; exact ⟨h1, h2⟩
    unfold renameTableRun rename_table_in_models
    rw [if_pos hcond]
    rfl

/-- Witness for C5: the present-name branch on `fileR` and the absent-name
branch on the empty file. -/
theorem rename_table_pattern_rewrite_witness :
    renameTableRun fileR (("A").data) (("B").data)
      = (.ok (), fileR.map (renameLine (("A").data) (("B").data))) ∧
    renameTableRun [] (("A").data) (("B").data) = (.error .valueError, []) := by
  constructor
  · exact (rename_table_pattern_rewrite fileR _ _).2 (by decide) (by decide)
  · exact ((rename_table_pattern_rewrite [] _ _).1 (by decide)).1

/-- C2: when the located class block contains, at an index `i` in
`[model_start, model_end)`, a declaration line for a column listed in
`delete_columns` that also carries the `primary_key=True` marker, the edit
fails with a 400 conflict and the on-disk file is unchanged (no column is
deleted, added or edited). -/
theorem edit_table_primary_key_delete_conflict
    (lines : List Line) (table_name : Str) (addC : List (Str × Str × Str))
    (editC : List EditCol) (delC : List Str) (ms : Nat) (meOpt : Option Nat)
    (hscan : scanBlock table_name lines 0 none = (some ms, meOpt))
    (h : ∃ i col, ms ≤ i ∧ i < meOpt.getD lines.length ∧ col ∈ delC ∧
      (colPrefix col).isPrefixOf (strip ((lines.get? i).getD [])) = true ∧
      containsSub pkMarker (strip ((lines.get? i).getD [])) = true) :
    editTableRun lines table_name addC editC delC
      = (.error (.httpExc 400), lines) := by
  obtain ⟨i, col, hmsi, him, hcol, hpre, hpk⟩ := h
  have hmem : col ∈ pkViolations lines delC ms (meOpt.getD lines.length) := by
    unfold pkViolations
    apply List.mem_flatMap.mpr
    refine ⟨i, List.mem_range'_1.mpr ⟨hmsi, by omega⟩, ?_⟩
    exact List.mem_filter.mpr ⟨hcol, by rw [Bool.and_eq_true]; exact ⟨hpre, hpk⟩⟩
  have hne : ¬ pkViolations lines delC ms (meOpt.getD lines.length) = [] :=
    fun hnil => (List.ne_nil_of_mem hmem) hnil
  unfold editTableRun runFileOp edit_table_in_models
  rw [hscan]
  simp only
  rw [if_neg hne]

/-- Witness for C2: deleting the primary-key column `id` of `fileA` is
rejected with a 400 and leaves the file as read. -/
theorem edit_table_primary_key_delete_conflict_witness :
    editTableRun fileA (("A").data) [] [] [(("id").data)]
      = (.error (.httpExc 400), fileA) :=
  edit_table_primary_key_delete_conflict fileA _ _ _ _ 0 none (by rfl)
    ⟨1, (("id").data), by decide, by decide, by decide, by decide, by decide⟩


/-- If every in-range index the edit scan will visit fails to match, the
scan errors: a 404 when the scanned interval lies inside the buffer, an
`IndexError` when it runs past the end.  The side condition
`i ≤ buf.length ∨ 0 < fuel` holds at every reachable call. -/
theorem editScanLoop_all_fail (buf : List Line) (e : EditCol) :
    ∀ (fuel i : Nat), (i ≤ buf.length ∨ 0 < fuel) →
    (∀ j l, i ≤ j → j < i + fuel → buf.get? j = some l →
      (colPrefix e.name).isPrefixOf (strip l) = false) →
    editScanLoop buf e i fuel
      = .error (if i + fuel ≤ buf.length then PyErr.httpExc 404
                else PyErr.indexError) := by
  intro fuel
  induction fuel with
  | zero =>
    intro i hi hnom
    have hle : i ≤ buf.length := by
      cases hi with
      | inl h => exact h
      | inr h => omega
    rw [if_pos (by omega)]
    rfl
  | succ fuel ih =>
    intro i hi hnom
    cases hget : buf.get? i with
    | none =>
      have hlen : buf.length ≤ i := List.get?_eq_none.mp hget
      rw [if_neg (by omega)]
      unfold editScanLoop
      rw [hget]
    | some l =>
      have hlt : i < buf.length := by
        rcases List.get?_eq_some.mp hget with ⟨h, _⟩
        exact h
      have hfail := hnom i l (Nat.le_refl i) (by omega) hget
      unfold editScanLoop
      rw [hget]
      simp only [hfail, Bool.false_eq_true, if_false]
      have harith : i + 1 + fuel = i + (fuel + 1) := by omega
      rw [← harith]
      exact ih (i + 1) (Or.inl (by omega))
        (fun j l2 hj1 hj2 hg => hnom j l2 (by omega) (by omega) hg)

/-- `Except.error` short-circuits a bind. -/
theorem except_error_bind {ε α β : Type} (er : ε) (f : α → Except ε β) :
    ((Except.error er : Except ε α) >>= f) = .error er := rfl


/-- The file of the C6 counterexample: the class block runs to the end of
the file, so `model_end` is the file length. -/
def c6file : List Line :=
  [(("class A(Base):").data) ++ [nlc],
   (("    x = Column(String)").data) ++ [nlc]]

/-- Counterexample for C6: the request deletes column `x` and edits the
absent column `y`.  The located class block (lines 0-1) holds no
declaration of `y`, yet the operation does not fail with NotFound: the
delete phase shrinks the buffer below the stale `model_end`, the edit scan
runs off the end of the buffer, and the endpoint reports the resulting
`IndexError` as a 500.  (The file is still unchanged, but the status
contradicts the claim.) -/
theorem edit_table_missing_column_not_404_counterexample :
    scanBlock (("A").data) c6file 0 none = (some 0, none) ∧
    ((c6file.take 2).all
      (fun l => !(colPrefix (("y").data)).isPrefixOf (strip l))) = true ∧
    editTableRun c6file (("A").data) [] [⟨(("y").data), none, none, none⟩]
        [(("x").data)]
      = (.error .indexError, c6file) ∧
    edit_table_status .indexError = 500 ∧
    ¬ (PyErr.indexError = PyErr.httpExc 404) := by
  exact ⟨by rfl, by decide, by rfl, by rfl, by decide⟩

/-- C6 (amended): let `buf` be the in-memory buffer after the delete and
add phases.  If the first edit entry's name matches no line of `buf` at the
scanned indices `[model_start, model_end)`, the operation fails before the
temp-file write and the on-disk file is unchanged — with a 404 when
`model_end` still lies within `buf`, but with an `IndexError` (reported as
a 500) when deletions shrank the buffer below the stale `model_end`.  The
original claim's NotFound is therefore guaranteed only in the first
case. -/
theorem edit_table_missing_column_fails_before_write
    (lines : List Line) (table_name : Str) (addC : List (Str × Str × Str))
    (e : EditCol) (restEdits : List EditCol) (delC : List Str)
    (ms me : Nat) (meOpt : Option Nat) (buf : List Line)
    (hscan : scanBlock table_name lines 0 none = (some ms, meOpt))
    (hme : me = meOpt.getD lines.length)
    (hmslt : ms < me)
    (hpk : pkViolations lines delC ms me = [])
    (hbuf : buf = addPhase (deletePhase lines delC ms me) addC me)
    (hnom : ∀ j l, ms ≤ j → j < me → buf.get? j = some l →
      (colPrefix e.name).isPrefixOf (strip l) = false) :
    editTableRun lines table_name addC (e :: restEdits) delC
      = (.error (if me ≤ buf.length then PyErr.httpExc 404
                 else PyErr.indexError), lines) := by
  have harith : ms + (me - ms) = me := by omega
  have hloop : editScanLoop buf e ms (me - ms)
      = .error (if me ≤ buf.length then PyErr.httpExc 404
                else PyErr.indexError) := by
    rw [editScanLoop_all_fail buf e (me - ms) ms (Or.inr (by omega))
      (fun j l hj1 hj2 hg => hnom j l hj1 (by omega) hg), harith]
  unfold editTableRun runFileOp edit_table_in_models
  rw [hscan]
  simp only
  rw [← hme, if_pos hpk, ← hbuf]
  unfold editPhase
  rw [List.foldlM_cons, hloop, except_error_bind]

/-- Witness for C6, in the in-bounds branch: `fileR` has its block within
the buffer (nothing is deleted), so editing the absent column `y` is
rejected with a 404 and the file is unchanged. -/
theorem edit_table_missing_column_fails_before_write_witness :
    editTableRun fileR (("A").data) [] [⟨(("y").data), none, none, none⟩] []
      = (.error (.httpExc 404), fileR) := by
  have h := edit_table_missing_column_fails_before_write fileR (("A").data)
    [] ⟨(("y").data), none, none, none⟩ [] [] 0 2 none fileR
    (by rfl) (by rfl) (by decide) (by rfl) (by rfl)
    (by
      intro j l _ hj2 hg
      interval_cases j
      · have h2 := Option.some.inj hg
        subst h2
        decide
      · have h2 := Option.some.inj hg
        subst h2
        decide)
  simpa using h


/-! ## Lemmas about the string embedding, used by the idempotence claim -/

/-- ASCII lower-casing is idempotent. -/
theorem lowerChar_lowerChar (c : Char) : lowerChar (lowerChar c) = lowerChar c := by
  have hnone : ∀ p ∈ upperLowerMap,
      upperLowerMap.find? (fun q => q.1 = p.2) = none := by decide
  cases hf : upperLowerMap.find? (fun p => p.1 = c) with
  | none =>
    have h1 : lowerChar c = c := by unfold lowerChar; rw [hf]; rfl
    rw [h1, h1]
  | some p =>
    have h1 : lowerChar c = p.2 := by unfold lowerChar; rw [hf]; rfl
    have h2 : lowerChar p.2 = p.2 := by
      unfold lowerChar
      rw [hnone p (List.mem_of_find?_eq_some hf)]
      rfl
    rw [h1, h2]

/-- An identifier character is not a space. -/
theorem identChar_ne_space {c : Char} (h : isIdentChar c = true) : ¬ c = ' ' :=
  fun he => absurd (he ▸ h) (by decide)

/-- An identifier character is not Python whitespace. -/
theorem identChar_not_pyspace {c : Char} (h : isIdentChar c = true) :
    pyIsSpace c = false := by
  cases hps : pyIsSpace c with
  | false => rfl
  | true =>
    exfalso
    have hd := hps
    simp only [pyIsSpace, Bool.or_eq_true, decide_eq_true_eq] at hd
    rcases hd with ((((h1 | h1) | h1) | h1) | h1) | h1 <;>
      (subst h1; exact absurd h (by decide))

/-- A leading identifier character is an identifier character. -/
theorem identStart_imp {c : Char} (h : isIdentStartChar c = true) :
    isIdentChar c = true := by
  simp only [isIdentStartChar, Bool.or_eq_true, Bool.and_eq_true,
    decide_eq_true_eq] at h
  simp only [isIdentChar, Bool.or_eq_true, Bool.and_eq_true, decide_eq_true_eq]
  tauto

/-- Every character of a valid identifier is an identifier character. -/
theorem isIdent_mem_identChar {s : Str} (h : isIdent s = true) :
    ∀ c ∈ s, isIdentChar c = true := by
  cases s with
  | nil => simp [isIdent] at h
  | cons a r =>
    simp only [isIdent, Bool.and_eq_true] at h
    intro c hc
    rcases List.mem_cons.mp hc with rfl | hm
    · exact identStart_imp h.1
    · exact List.all_eq_true.mp h.2 c hm

/-- `dropWhile` is the identity when no element satisfies the predicate. -/
theorem dropWhile_eq_self_of_all {p : Char → Bool} {s : Str}
    (h : ∀ c ∈ s, p c = false) : s.dropWhile p = s := by
  cases s with
  | nil => rfl
  | cons a r =>
    rw [List.dropWhile_cons,
      if_neg (by simp [h a (List.mem_cons_self a r)])]

/-- Stripping an identifier-only string is the identity. -/
theorem strip_eq_self_of_ident {s : Str} (h : ∀ c ∈ s, isIdentChar c = true) :
    strip s = s := by
  unfold strip lstrip rstrip
  rw [dropWhile_eq_self_of_all (fun c hc => identChar_not_pyspace (h c hc))]
  rw [dropWhile_eq_self_of_all
    (fun c hc => identChar_not_pyspace (h c (List.mem_reverse.mp hc)))]
  exact List.reverse_reverse s

/-- Space-filtering an identifier-only string is the identity. -/
theorem filter_ne_space_of_ident {s : Str} (h : ∀ c ∈ s, isIdentChar c = true) :
    s.filter (fun c => ¬ c = ' ') = s :=
  List.filter_eq_self.mpr (fun a ha => decide_eq_true (identChar_ne_space (h a ha)))

/-- ASCII lower-casing of a string is idempotent. -/
theorem map_lowerChar_idem (s : Str) :
    (s.map lowerChar).map lowerChar = s.map lowerChar := by
  rw [List.map_map]
  exact List.map_congr_left (fun a _ => lowerChar_lowerChar a)

/-- `dropWhile` is idempotent. -/
theorem dropWhile_idem (p : Char → Bool) (s : Str) :
    (s.dropWhile p).dropWhile p = s.dropWhile p := by
  induction s with
  | nil => rfl
  | cons a r ih =>
    by_cases ha : p a = true
    · simp only [List.dropWhile_cons, if_pos ha]; exact ih
    · simp only [List.dropWhile_cons, if_neg ha]

/-- `rstrip` is idempotent. -/
theorem rstrip_idem (s : Str) : rstrip (rstrip s) = rstrip s := by
  unfold rstrip
  rw [List.reverse_reverse, dropWhile_idem]

/-- `rstrip` keeps a prefix of its argument. -/
theorem rstrip_prefix (s : Str) : rstrip s <+: s := by
  have h := List.reverse_prefix.mpr
    (List.dropWhile_suffix pyIsSpace :
      s.reverse.dropWhile pyIsSpace <:+ s.reverse)
  rw [List.reverse_reverse] at h
  exact h

/-- The head of `lstrip` fails the whitespace test. -/
theorem lstrip_head (s : Str) :
    lstrip s = [] ∨ ∃ c r, lstrip s = c :: r ∧ pyIsSpace c = false := by
  induction s with
  | nil => exact Or.inl rfl
  | cons a r ih =>
    unfold lstrip at *
    by_cases ha : pyIsSpace a = true
    · rw [List.dropWhile_cons, if_pos ha]; exact ih
    · rw [List.dropWhile_cons, if_neg ha]
      exact Or.inr ⟨a, r, rfl, by simpa using ha⟩

/-- `strip` is idempotent. -/
theorem strip_idem (s : Str) : strip (strip s) = strip s := by
  have h1 : lstrip (rstrip (lstrip s)) = rstrip (lstrip s) := by
    rcases lstrip_head s with h | ⟨c, r, hcr, hc⟩
    · rw [h]; rfl
    · cases hpre : rstrip (lstrip s) with
      | nil => rfl
      | cons d r2 =>
        have hp := rstrip_prefix (lstrip s)
        rw [hpre, hcr] at hp
        obtain ⟨t, ht⟩ := hp
        have hd : d = c := by
          have := ht
          rw [List.cons_append] at this
          injection this with h1 _
        subst hd
        unfold lstrip
        rw [List.dropWhile_cons, if_neg (by simp [hc])]
  show rstrip (lstrip (rstrip (lstrip s))) = rstrip (lstrip s)
  rw [h1, rstrip_idem]

/-- Stripping absorbs a leading space. -/
theorem strip_cons_space (s : Str) : strip (' ' :: s) = strip s := by
  unfold strip lstrip
  rw [List.dropWhile_cons, if_pos (by decide)]

/-- Characters of `strip s` come from `s`. -/
theorem mem_of_mem_strip {a : Char} {s : Str} (h : a ∈ strip s) : a ∈ s := by
  unfold strip rstrip lstrip at h
  have h1 : a ∈ (s.dropWhile pyIsSpace).reverse :=
    ((List.dropWhile_suffix pyIsSpace).sublist).mem (List.mem_reverse.mp h)
  exact ((List.dropWhile_suffix pyIsSpace).sublist).mem (List.mem_reverse.mp h1)

/-- The segments produced by `splitCh` do not contain the separator. -/
theorem splitCh_no_sep (c : Char) (s : Str) :
    (¬ c ∈ (splitCh c s).1) ∧ (∀ p ∈ (splitCh c s).2, ¬ c ∈ p) := by
  induction s with
  | nil => exact ⟨by simp [splitCh], by simp [splitCh]⟩
  | cons x r ih =>
    by_cases hx : x = c
    · simp only [splitCh, if_pos hx]
      refine ⟨by simp, ?_⟩
      intro p hp
      rcases List.mem_cons.mp hp with rfl | hm
      · exact ih.1
      · exact ih.2 p hm
    · simp only [splitCh, if_neg hx]
      refine ⟨?_, ih.2⟩
      intro hmem
      rcases List.mem_cons.mp hmem with h1 | hm
      · exact hx h1.symm
      · exact ih.1 hm

/-- `splitCh` walks over a separator-free prefix. -/
theorem splitCh_append_no_sep {c : Char} {a : Str} (b : Str) (ha : ¬ c ∈ a) :
    splitCh c (a ++ b) = (a ++ (splitCh c b).1, (splitCh c b).2) := by
  induction a with
  | nil => simp
  | cons x xs ih =>
    have hx : ¬ x = c := fun h => ha (List.mem_cons.mpr (Or.inl h.symm))
    have hxs : ¬ c ∈ xs := fun hm => ha (List.mem_cons_of_mem x hm)
    rw [List.cons_append]
    show splitCh c (x :: (xs ++ b)) = _
    simp only [splitCh, if_neg hx]
    rw [ih hxs]
    simp

/-- Splitting the `", ".join` of separator-free parts recovers the parts,
each non-first part carrying the leading space of the separator. -/
theorem splitOnChar_joinSep (c w : Char) (p : Str) (ps : List Str)
    (hw : ¬ w = c) (hp : ¬ c ∈ p) (hps : ∀ q ∈ ps, ¬ c ∈ q) :
    splitOnChar c (joinSep [c, w] (p :: ps)) = p :: ps.map (fun q => w :: q) := by
  induction ps generalizing p with
  | nil =>
    have h1 := splitCh_append_no_sep ([] : Str) hp
    simp only [List.append_nil] at h1
    have h2 : splitCh c ([] : Str) = ([], []) := rfl
    rw [h2] at h1
    show (splitCh c (joinSep [c, w] [p])).1
        :: (splitCh c (joinSep [c, w] [p])).2 = [p]
    rw [show joinSep [c, w] [p] = p from rfl, h1]
    simp
  | cons q qs ih =>
    have hq : ¬ c ∈ q := hps q (List.mem_cons_self q qs)
    have hqs : ∀ x ∈ qs, ¬ c ∈ x := fun x hx => hps x (List.mem_cons_of_mem q hx)
    have hihsplit : splitCh c (joinSep [c, w] (q :: qs))
        = (q, qs.map (fun x => w :: x)) := by
      have h2 := ih q hq hqs
      unfold splitOnChar at h2
      injection h2 with ha hb
      exact Prod.ext ha hb
    have hsp2 : splitCh c (w :: joinSep [c, w] (q :: qs))
        = (w :: q, qs.map (fun x => w :: x)) := by
      show (if w = c then
              ([], (splitCh c (joinSep [c, w] (q :: qs))).1
                :: (splitCh c (joinSep [c, w] (q :: qs))).2)
            else (w :: (splitCh c (joinSep [c, w] (q :: qs))).1,
              (splitCh c (joinSep [c, w] (q :: qs))).2)) = _
      rw [if_neg hw, hihsplit]
    have hsp1 : splitCh c (c :: w :: joinSep [c, w] (q :: qs))
        = ([], (w :: q) :: qs.map (fun x => w :: x)) := by
      show (if c = c then
              ([], (splitCh c (w :: joinSep [c, w] (q :: qs))).1
                :: (splitCh c (w :: joinSep [c, w] (q :: qs))).2)
            else (c :: (splitCh c (w :: joinSep [c, w] (q :: qs))).1,
              (splitCh c (w :: joinSep [c, w] (q :: qs))).2)) = _
      rw [if_pos rfl, hsp2]
    have hstep : joinSep [c, w] (p :: q :: qs)
        = p ++ (c :: w :: joinSep [c, w] (q :: qs)) := by
      show p ++ [c, w] ++ joinSep [c, w] (q :: qs) = _
      rw [List.append_assoc]
      rfl
    show (splitCh c (joinSep [c, w] (p :: q :: qs))).1
        :: (splitCh c (joinSep [c, w] (p :: q :: qs))).2 = _
    rw [hstep, splitCh_append_no_sep _ hp, hsp1]
    simp


/-- Re-validation of a validated column name is the identity. -/
theorem validate_name_idem {v n : Str}
    (h : ColumnDefinition.validate_name v = some n) :
    ColumnDefinition.validate_name n = some n := by
  unfold ColumnDefinition.validate_name at h ⊢
  split at h
  case isFalse => exact absurd h (by simp)
  case isTrue hid =>
    have hn := Option.some.inj h
    subst hn
    have hmem := isIdent_mem_identChar hid
    rw [strip_eq_self_of_ident hmem, filter_ne_space_of_ident hmem,
      map_lowerChar_idem]
    rw [if_pos hid]

/-- Re-validation of a validated column type is the identity. -/
theorem validate_type_idem {v t : Str}
    (h : ColumnDefinition.validate_type v = some t) :
    ColumnDefinition.validate_type t = some t := by
  unfold ColumnDefinition.validate_type at h
  split at h
  case isFalse => exact absurd h (by simp)
  case isTrue hmem =>
    have ht := Option.some.inj h
    subst ht
    revert hmem
    generalize pyCapitalize ((splitOnChar ',' (strip v)).headD []) = X
    intro hmem
    fin_cases hmem <;> decide

/-- Re-validation of a validated attribute string is the identity. -/
theorem validate_attributes_idem {a : AttrInput} {r : Str}
    (h : validateAttributesInput a = some r) :
    validateAttributesInput (.str r) = some r := by
  have hparts : ∀ p ∈ (splitOnChar ',' (attrText a)).map strip,
      strip p = p ∧ ¬ (',' ∈ p) := by
    intro p hp
    obtain ⟨seg, hseg, rfl⟩ := List.mem_map.mp hp
    have hseg2 : seg = (splitCh ',' (attrText a)).1 ∨
        seg ∈ (splitCh ',' (attrText a)).2 := List.mem_cons.mp hseg
    refine ⟨strip_idem seg, fun hm => ?_⟩
    have hm2 := mem_of_mem_strip hm
    rcases hseg2 with rfl | hsnd
    · exact (splitCh_no_sep ',' (attrText a)).1 hm2
    · exact (splitCh_no_sep ',' (attrText a)).2 seg hsnd hm2
  unfold validateAttributesInput ColumnDefinition.validate_attributes at h
  split at h
  case isFalse => exact absurd h (by simp)
  case isTrue hall =>
    have hr := Option.some.inj h
    cases hps : (splitOnChar ',' (attrText a)).map strip with
    | nil => exact absurd hps (by unfold splitOnChar; simp)
    | cons p0 rest =>
      rw [hps] at hall hr
      have hp0 : ¬ (',' ∈ p0) :=
        (hparts p0 (by rw [hps]; exact List.mem_cons_self p0 rest)).2
      have hp0s : strip p0 = p0 :=
        (hparts p0 (by rw [hps]; exact List.mem_cons_self p0 rest)).1
      have hrest : ∀ q ∈ rest, ¬ (',' ∈ q) := fun q hq =>
        (hparts q (by rw [hps]; exact List.mem_cons_of_mem p0 hq)).2
      have hrests : ∀ q ∈ rest, strip q = q := fun q hq =>
        (hparts q (by rw [hps]; exact List.mem_cons_of_mem p0 hq)).1
      have hsplit : splitOnChar ',' r = p0 :: rest.map (fun q => ' ' :: q) := by
        rw [← hr]
        exact splitOnChar_joinSep ',' ' ' p0 rest (by decide) hp0 hrest
      have hmapstrip : (splitOnChar ',' r).map strip = p0 :: rest := by
        rw [hsplit]
        simp only [List.map_cons, hp0s, List.map_map]
        congr 1
        have hcong : ∀ q ∈ rest, (strip ∘ fun x => ' ' :: x) q = id q := by
          intro q hq
          simp only [Function.comp_apply, id]
          rw [strip_cons_space]
          exact hrests q hq
        rw [List.map_congr_left hcong, List.map_id]
      unfold validateAttributesInput ColumnDefinition.validate_attributes
      rw [show attrText (AttrInput.str r) = r from rfl]
      rw [hmapstrip]
      rw [if_pos hall, hr]

/-- C8: for every ColumnSpec that passes creation-time validation,
re-applying the name, type and attribute validators to the already
normalised outputs returns those outputs unchanged — the normalisation is
a fixed point. -/
theorem column_validators_idempotent
    (rawName rawType : Str) (rawAttrs : AttrInput) (n t a : Str)
    (hn : ColumnDefinition.validate_name rawName = some n)
    (ht : ColumnDefinition.validate_type rawType = some t)
    (ha : validateAttributesInput rawAttrs = some a) :
    ColumnDefinition.validate_name n = some n ∧
    ColumnDefinition.validate_type t = some t ∧
    validateAttributesInput (.str a) = some a :=
  ⟨validate_name_idem hn, validate_type_idem ht, validate_attributes_idem ha⟩

/-- Witness for C8 at a concrete column specification that needs every
normalisation step (spaces, case, comma-splitting). -/
theorem column_validators_idempotent_witness :
    ColumnDefinition.validate_name (("My Id").data) = some (("myid").data) ∧
    ColumnDefinition.validate_name (("myid").data) = some (("myid").data) ∧
    ColumnDefinition.validate_type ((" integer, x").data) = some (("Integer").data) ∧
    ColumnDefinition.validate_type (("Integer").data) = some (("Integer").data) ∧
    validateAttributesInput (.list [(("primary_key=True").data), (("nullable=False").data)])
      = some (("primary_key=True, nullable=False").data) ∧
    validateAttributesInput (.str (("primary_key=True, nullable=False").data))
      = some (("primary_key=True, nullable=False").data) := by
  have h := column_validators_idempotent (("My Id").data) ((" integer, x").data)
    (.list [(("primary_key=True").data), (("nullable=False").data)])
    (("myid").data) (("Integer").data)
    (("primary_key=True, nullable=False").data)
    (by decide) (by decide) (by decide)
  exact ⟨by decide, h.1, by decide, h.2.1, by decide, h.2.2⟩



/-! ## The round-trip development: structured table declarations, their
rendered text, and the parse of that text -/

/-- The text of one `key=value` attribute fragment. -/
def fragStr (kv : Str × Str) : Str := kv.1 ++ '=' :: kv.2

/-- A plain, non-reserved identifier. -/
def identNoKw (s : Str) : Bool := isIdent s && ¬ s ∈ pyKeywords

/-- A keyword-argument value whose `str()` rendering is its own spelling:
a plain identifier, or `True` / `False` / `None`. -/
def wfVal (v : Str) : Bool := isIdent v && (v ∈ constNames || ¬ v ∈ pyKeywords)

/-- A well-formed `key=value` fragment. -/
def wfFrag (kv : Str × Str) : Bool := identNoKw kv.1 && wfVal kv.2

/-- A structured column declaration: name, type and `key=value`
fragments. -/
structure RCol where
  name : Str
  type : Str
  frags : List (Str × Str)

/-- The attribute string of a structured column, exactly as a validated
`attributes` field whose fragments all have the `key=value` shape. -/
def RCol.attrs (c : RCol) : Str := joinSep ((", ").data) (c.frags.map fragStr)

/-- The column dictionary handed to `add_table_to_models`. -/
def RCol.dict (c : RCol) : Str × Str × Str := (c.name, c.type, c.attrs)

/-- Well-formedness of a structured column: plain identifiers (the name not
the reserved `__tablename__` slot) and well-formed fragments. -/
def RCol.wf (c : RCol) : Bool :=
  identNoKw c.name && (¬ c.name = (("__tablename__").data)) &&
  identNoKw c.type && c.frags.all wfFrag

/-- A structured class-per-table declaration. -/
structure RClass where
  name : Str
  cols : List RCol

/-- Well-formedness of a structured class. -/
def RClass.wf (c : RClass) : Bool := identNoKw c.name && c.cols.all RCol.wf

/-- The text `add_table_to_models` generates for one class. -/
def chunkText (c : RClass) : Str :=
  writeLines (newTableLines c.name (c.cols.map RCol.dict))

/-- A model file made of generated class blocks. -/
def fileTextOf (clss : List RClass) : Str := (clss.map chunkText).flatten

/-- The inventory entry the parser is expected to produce for a class. -/
def tableOf (c : RClass) : PTable :=
  ⟨pyLower c.name, c.cols.map (fun col => ⟨col.name, col.type, col.attrs⟩)⟩

/-- The logical (newline-free) lines of one generated class block. -/
def classHeaderLine (n : Str) : Str :=
  (("class ").data) ++ n ++ (("(Base):").data)

/-- The `__tablename__` logical line. -/
def tablenameLine (n : Str) : Str :=
  (("    __tablename__ = ").data) ++ [sqc] ++ pyLower n ++ [sqc]

/-- The logical line of one column declaration. -/
def colBodyLine (d : Str × Str × Str) : Str :=
  (("    ").data) ++ d.1 ++ ((" = Column(").data) ++ d.2.1 ++
  (if d.2.2 = [] then [] else ((", ").data) ++ d.2.2) ++ [')']

/-- The logical lines of one generated class block. -/
def chunkLogical (c : RClass) : List Str :=
  [[], [], classHeaderLine c.name, tablenameLine c.name] ++
  (c.cols.map RCol.dict).map colBodyLine

/-- The `ast` value the parser produces for a well-formed atom. -/
def expectedVal (v : Str) : PyExpr :=
  if v ∈ constNames then .const v else .name v

/-- The parse of one well-formed column declaration line. -/
def colStmt (c : RCol) : Str × PyExpr :=
  (c.name, .call (("Column").data) [.name c.type]
    (c.frags.map (fun kv => (kv.1, expectedVal kv.2))))

/-- The parse of one generated class block. -/
def pyClassOf (c : RClass) : PyClass :=
  ⟨c.name, ((("__tablename__").data), .const (pyLower c.name))
    :: c.cols.map colStmt⟩

/-! ### Generic take/drop lemmas -/

/-- `takeWhile` passes over an all-satisfying prefix. -/
theorem takeWhile_append_all {α : Type} (p : α → Bool) (x y : List α)
    (h : ∀ a ∈ x, p a = true) : (x ++ y).takeWhile p = x ++ y.takeWhile p := by
  induction x with
  | nil => rfl
  | cons a r ih =>
    rw [List.cons_append, List.takeWhile_cons,
      if_pos (h a (List.mem_cons_self a r)), List.cons_append,
      ih (fun b hb => h b (List.mem_cons_of_mem a hb))]

/-- `dropWhile` passes over an all-satisfying prefix. -/
theorem dropWhile_append_all {α : Type} (p : α → Bool) (x y : List α)
    (h : ∀ a ∈ x, p a = true) : (x ++ y).dropWhile p = y.dropWhile p := by
  induction x with
  | nil => rfl
  | cons a r ih =>
    rw [List.cons_append, List.dropWhile_cons,
      if_pos (h a (List.mem_cons_self a r)),
      ih (fun b hb => h b (List.mem_cons_of_mem a hb))]

/-- A list whose head fails the predicate is untouched by
`takeWhile` / `dropWhile`. -/
theorem takeWhile_head_false {α : Type} (p : α → Bool) (y : List α)
    (h : ∀ c, y.head? = some c → p c = false) :
    y.takeWhile p = [] ∧ y.dropWhile p = y := by
  cases y with
  | nil => exact ⟨rfl, rfl⟩
  | cons a r =>
    have ha : p a = false := h a rfl
    rw [List.takeWhile_cons, List.dropWhile_cons]
    rw [if_neg (by simp [ha]), if_neg (by simp [ha])]
    exact ⟨rfl, rfl⟩

/-! ### Character-class facts used by the parsing lemmas -/

/-- A leading identifier character is not a space. -/
theorem identStartChar_ne_space {c : Char} (h : isIdentStartChar c = true) :
    ¬ c = ' ' := fun he => absurd (he ▸ h) (by decide)

/-- ASCII lower-casing preserves identifier characters. -/
theorem lowerChar_identChar {c : Char} (h : isIdentChar c = true) :
    isIdentChar (lowerChar c) = true := by
  have hpairs : ∀ p ∈ upperLowerMap, isIdentChar p.2 = true := by decide
  cases hf : upperLowerMap.find? (fun p => p.1 = c) with
  | none => unfold lowerChar; rw [hf]; exact h
  | some p =>
    have h2 : lowerChar c = p.2 := by unfold lowerChar; rw [hf]; rfl
    rw [h2]
    exact hpairs p (List.mem_of_find?_eq_some hf)

/-- Characters of a lower-cased identifier are identifier characters. -/
theorem pyLower_ident_mem {s : Str} (h : isIdent s = true) :
    ∀ c ∈ pyLower s, isIdentChar c = true := by
  intro c hc
  obtain ⟨c0, hc0, rfl⟩ := List.mem_map.mp hc
  exact lowerChar_identChar (isIdent_mem_identChar h c0 hc0)

/-- An identifier does not contain the newline character. -/
theorem ident_no_nl {s : Str} (h : isIdent s = true) : ¬ nlc ∈ s :=
  fun hm => absurd (isIdent_mem_identChar h nlc hm) (by decide)

/-- Members of a `joinSep` come from the separator or from a part. -/
theorem mem_joinSep {a : Char} {sep : Str} {ps : List Str}
    (h : a ∈ joinSep sep ps) : a ∈ sep ∨ ∃ p ∈ ps, a ∈ p := by
  induction ps with
  | nil => cases h
  | cons p rest ih =>
    cases rest with
    | nil => exact Or.inr ⟨p, List.mem_cons_self p [], h⟩
    | cons q qs =>
      rcases List.mem_append.mp h with h1 | h2
      · rcases List.mem_append.mp h1 with h3 | h4
        · exact Or.inr ⟨p, List.mem_cons_self p _, h3⟩
        · exact Or.inl h4
      · rcases ih h2 with h3 | ⟨x, hx, hax⟩
        · exact Or.inl h3
        · exact Or.inr ⟨x, List.mem_cons_of_mem p hx, hax⟩


/-! ### Token-level parsing lemmas -/

/-- `takeIdent` consumes exactly a leading identifier when the remainder
does not start with an identifier character. -/
theorem takeIdent_append {n : Str} (r : Str) (hn : isIdent n = true)
    (hr : ∀ c, r.head? = some c → isIdentChar c = false) :
    takeIdent (n ++ r) = some (n, r) := by
  cases n with
  | nil => simp [isIdent] at hn
  | cons a m =>
    simp only [isIdent, Bool.and_eq_true] at hn
    have hmall : ∀ c ∈ m, isIdentChar c = true :=
      fun c hc => List.all_eq_true.mp hn.2 c hc
    rw [List.cons_append]
    unfold takeIdent
    dsimp only
    rw [if_pos hn.1]
    rw [takeWhile_append_all _ _ _ hmall, dropWhile_append_all _ _ _ hmall,
      (takeWhile_head_false isIdentChar r hr).1,
      (takeWhile_head_false isIdentChar r hr).2, List.append_nil]

/-- `skipSp` drops a leading space. -/
theorem skipSp_cons_space (s : Str) : skipSp (' ' :: s) = skipSp s := by
  unfold skipSp
  rw [List.dropWhile_cons, if_pos (by decide)]

/-- `skipSp` leaves a string that does not start with a space alone. -/
theorem skipSp_head_ne {s : Str} (h : ∀ c, s.head? = some c → ¬ c = ' ') :
    skipSp s = s := by
  cases s with
  | nil => rfl
  | cons a r =>
    unfold skipSp
    rw [List.dropWhile_cons, if_neg (by simp [h a rfl])]

/-- An identifier does not start with a space. -/
theorem ident_head_ne_space {n : Str} (hn : isIdent n = true) :
    ∀ c, n.head? = some c → ¬ c = ' ' := by
  intro c hc
  cases n with
  | nil => cases hc
  | cons a m =>
    simp only [isIdent, Bool.and_eq_true] at hn
    cases hc
    exact identStartChar_ne_space hn.1

/-- `parseAtom` on a well-formed identifier value. -/
theorem parseAtom_ident {v : Str} (r : Str) (hv : wfVal v = true)
    (hr : ∀ c, r.head? = some c → isIdentChar c = false) :
    parseAtom (v ++ r) = some (expectedVal v, r) := by
  simp only [wfVal, Bool.and_eq_true, Bool.or_eq_true, decide_eq_true_eq] at hv
  unfold parseAtom
  rw [takeIdent_append r hv.1 hr]
  dsimp only
  by_cases hc : v ∈ constNames
  · rw [if_pos hc]
    unfold expectedVal
    rw [if_pos hc]
  · have hnk : ¬ v ∈ pyKeywords := by
      rcases hv.2 with h1 | h1
      · exact absurd h1 hc
      · exact h1
    rw [if_neg hc, if_neg hnk]
    unfold expectedVal
    rw [if_neg hc]

/-- `parseAtom` on a single-quoted string literal. -/
theorem parseAtom_string (body r : Str) (hbody : ¬ sqc ∈ body) :
    parseAtom (sqc :: (body ++ sqc :: r)) = some (.const body, r) := by
  have hb : ∀ a ∈ body, (fun c => decide (¬ c = sqc)) a = true :=
    fun a ha => decide_eq_true (fun he => hbody (he ▸ ha))
  have hdw : (body ++ sqc :: r).dropWhile (fun c => ¬ c = sqc) = sqc :: r := by
    rw [dropWhile_append_all _ _ _ hb, List.dropWhile_cons, if_neg (by simp)]
  have htw : (body ++ sqc :: r).takeWhile (fun c => ¬ c = sqc) = body := by
    rw [takeWhile_append_all _ _ _ hb, List.takeWhile_cons, if_neg (by simp),
      List.append_nil]
  have hti : takeIdent (sqc :: (body ++ sqc :: r)) = none := by
    unfold takeIdent
    dsimp only
    rw [if_neg (by decide)]
  unfold parseAtom
  rw [hti]
  dsimp only
  rw [if_pos rfl, hdw]
  dsimp only
  rw [htw]


/-- `skipSp` leaves a string that starts with an identifier alone. -/
theorem skipSp_ident_lead {k : Str} (y : Str) (hk : isIdent k = true) :
    skipSp (k ++ y) = k ++ y := by
  cases k with
  | nil => simp [isIdent] at hk
  | cons a m =>
    simp only [isIdent, Bool.and_eq_true] at hk
    rw [List.cons_append]
    exact skipSp_head_ne (fun c hc => by
      cases hc
      exact identStartChar_ne_space hk.1)

/-- The reserved constants are reserved words. -/
theorem constNames_subset_kw : ∀ s ∈ constNames, s ∈ pyKeywords := by decide

/-- `parseArgItem` on a well-formed keyword argument. -/
theorem parseArgItem_kwarg (k v tail : Str) (hk : identNoKw k = true)
    (hv : wfVal v = true)
    (htail : ∀ c, tail.head? = some c → isIdentChar c = false) :
    parseArgItem (k ++ ('=' :: (v ++ tail)))
      = some (.inr (k, expectedVal v), tail) := by
  simp only [identNoKw, Bool.and_eq_true, decide_eq_true_eq] at hk
  unfold parseArgItem
  rw [takeIdent_append ('=' :: (v ++ tail)) hk.1
    (fun c hc => by cases hc; decide)]
  dsimp only
  rw [if_pos rfl, if_neg hk.2, parseAtom_ident tail hv htail]

/-- `parseArgItem` on a bare identifier argument. -/
theorem parseArgItem_positional (t tail : Str) (ht : identNoKw t = true)
    (htail : ∀ c, tail.head? = some c → isIdentChar c = false ∧ ¬ c = '=') :
    parseArgItem (t ++ tail) = some (.inl (.name t), tail) := by
  simp only [identNoKw, Bool.and_eq_true, decide_eq_true_eq] at ht
  have hnc : ¬ t ∈ constNames := fun hc => ht.2 (constNames_subset_kw t hc)
  unfold parseArgItem
  rw [takeIdent_append tail ht.1 (fun c hc => (htail c hc).1)]
  dsimp only
  cases tail with
  | nil =>
    dsimp only
    unfold resolvePositional
    rw [if_neg hnc, if_neg ht.2]
  | cons c rv =>
    dsimp only
    rw [if_neg ((htail c rfl).2)]
    unfold resolvePositional
    rw [if_neg hnc, if_neg ht.2]

/-- The kwargs chain of a generated `Column(...)` call: parsing
`\u0020k1=v1, k2=v2, ...)` yields the keyword arguments in order. -/
theorem parseArgsLoop_kwargs :
    ∀ (frags : List (Str × Str)), frags.all wfFrag = true →
    ∀ (fuel : Nat), frags.length ≤ fuel → frags ≠ [] →
    parseArgsLoop fuel
      (' ' :: (joinSep ((", ").data) (frags.map fragStr) ++ [')']))
      = some ([], frags.map (fun kv => (kv.1, expectedVal kv.2)), []) := by
  intro frags
  induction frags with
  | nil => intro _ _ _ hne; cases hne rfl
  | cons f rest ih =>
    intro hwf fuel hfuel _
    obtain ⟨k, v⟩ := f
    simp only [List.all_cons, Bool.and_eq_true] at hwf
    have hkv := hwf.1
    simp only [wfFrag, Bool.and_eq_true] at hkv
    have hkident : isIdent k = true := by
      have := hkv.1
      simp only [identNoKw, Bool.and_eq_true] at this
      exact this.1
    cases fuel with
    | zero => simp at hfuel
    | succ fuel =>
      cases rest with
      | nil =>
        have hshape : joinSep ((", ").data) ([(k, v)].map fragStr) ++ [')']
            = k ++ ('=' :: (v ++ [')'])) := by
          simp [joinSep, fragStr, List.append_assoc]
        rw [hshape]
        simp only [parseArgsLoop]
        rw [skipSp_cons_space, skipSp_ident_lead _ hkident,
          parseArgItem_kwarg k v [')'] hkv.1 hkv.2
            (fun c hc => by cases hc; decide)]
        dsimp only
        rw [skipSp_head_ne (fun c hc => by cases hc; decide)]
        dsimp only
        rw [if_pos rfl]
        unfold argStep
        dsimp only
        rw [if_pos rfl]
        rfl
      | cons g more =>
        have hshape : joinSep ((", ").data) (((k, v) :: g :: more).map fragStr) ++ [')']
            = k ++ ('=' :: (v ++ (',' :: (' ' ::
                (joinSep ((", ").data) ((g :: more).map fragStr) ++ [')']))))) := by
          simp [joinSep, fragStr, List.append_assoc]
        rw [hshape]
        simp only [parseArgsLoop]
        rw [skipSp_cons_space, skipSp_ident_lead _ hkident,
          parseArgItem_kwarg k v
            (',' :: (' ' :: (joinSep ((", ").data) ((g :: more).map fragStr) ++ [')'])))
            hkv.1 hkv.2 (fun c hc => by cases hc; decide)]
        dsimp only
        rw [skipSp_head_ne (fun c hc => by cases hc; decide)]
        dsimp only
        rw [if_neg (by decide), if_pos rfl]
        rw [ih hwf.2 fuel
          (by simp only [List.length_cons] at hfuel ⊢; omega) (by simp)]
        unfold argStep
        dsimp only
        rfl


/-- A `key=value` fragment is never the empty string. -/
theorem fragStr_ne_nil (kv : Str × Str) : ¬ fragStr kv = [] := by
  unfold fragStr
  simp

/-- A join of non-empty parts has at least as many characters as parts. -/
theorem joinSep_length_ge (sep : Str) :
    ∀ (ps : List Str), (∀ p ∈ ps, ¬ p = []) →
    ps.length ≤ (joinSep sep ps).length := by
  intro ps
  induction ps with
  | nil => intro _; simp
  | cons p rest ih =>
    intro h
    have hp : 0 < p.length :=
      List.length_pos.mpr (h p (List.mem_cons_self p _))
    cases rest with
    | nil => simpa [joinSep] using hp
    | cons q more =>
      have hih := ih (fun x hx => h x (List.mem_cons_of_mem p hx))
      simp only [joinSep, List.length_append, List.length_cons] at hih ⊢
      omega

/-- The argument list of a generated call with no attribute fragments. -/
theorem parseArgsLoop_call_nil (t : Str) (ht : identNoKw t = true) :
    ∀ (fuel : Nat), 1 ≤ fuel →
    parseArgsLoop fuel (t ++ [')']) = some ([.name t], [], []) := by
  intro fuel hfuel
  have hti : isIdent t = true := by
    simp only [identNoKw, Bool.and_eq_true] at ht
    exact ht.1
  cases fuel with
  | zero => omega
  | succ fuel =>
    simp only [parseArgsLoop]
    rw [skipSp_ident_lead _ hti,
      parseArgItem_positional t [')'] ht
        (fun c hc => by cases hc; exact ⟨by decide, by decide⟩)]
    dsimp only
    rw [skipSp_head_ne (fun c hc => by cases hc; decide)]
    dsimp only
    rw [if_pos rfl]
    unfold argStep
    dsimp only
    rw [if_pos rfl]

/-- The argument list of a generated call with attribute fragments. -/
theorem parseArgsLoop_call_cons (t : Str) (frags : List (Str × Str))
    (ht : identNoKw t = true) (hwf : frags.all wfFrag = true)
    (hne : ¬ frags = []) :
    ∀ (fuel : Nat), frags.length + 1 ≤ fuel →
    parseArgsLoop fuel
      (t ++ (',' :: (' ' ::
        (joinSep ((", ").data) (frags.map fragStr) ++ [')']))))
      = some ([.name t], frags.map (fun kv => (kv.1, expectedVal kv.2)), []) := by
  intro fuel hfuel
  have hti : isIdent t = true := by
    simp only [identNoKw, Bool.and_eq_true] at ht
    exact ht.1
  cases fuel with
  | zero => omega
  | succ fuel =>
    simp only [parseArgsLoop]
    rw [skipSp_ident_lead _ hti,
      parseArgItem_positional t
        (',' :: (' ' :: (joinSep ((", ").data) (frags.map fragStr) ++ [')'])))
        ht (fun c hc => by cases hc; exact ⟨by decide, by decide⟩)]
    dsimp only
    rw [skipSp_head_ne (fun c hc => by cases hc; decide)]
    dsimp only
    rw [if_neg (by decide), if_pos rfl]
    rw [parseArgsLoop_kwargs frags hwf fuel (by omega) hne]
    unfold argStep
    dsimp only

/-- `parseExpr` on a generated `Column(...)` expression, given the parse of
its argument text. -/
theorem parseExpr_column_gen (argText : Str) (args : List PyExpr)
    (kws : List (Str × PyExpr))
    (hargs : parseArgsLoop (argText.length + 1) argText
      = some (args, kws, [])) :
    parseExpr ((("Column").data) ++ ('(' :: argText))
      = some (.call (("Column").data) args kws, []) := by
  unfold parseExpr
  rw [takeIdent_append ('(' :: argText) (by decide)
    (fun c hc => by cases hc; decide)]
  dsimp only
  rw [if_pos rfl, if_neg (by decide), hargs]


/-- A string with a concrete non-identifier head. -/
theorem headNotIdent_of_concrete (a : Char) {x y : Str} (hy : y = a :: x)
    (ha : isIdentChar a = false) :
    ∀ c, y.head? = some c → isIdentChar c = false := by
  intro c hc
  rw [hy] at hc
  cases Option.some.inj hc
  exact ha

/-- A string with a concrete head that is neither an identifier character
nor `=`. -/
theorem headNotIdentEq_of_concrete (a : Char) {x y : Str} (hy : y = a :: x)
    (ha : isIdentChar a = false ∧ ¬ a = '=') :
    ∀ c, y.head? = some c → isIdentChar c = false ∧ ¬ c = '=' := by
  intro c hc
  rw [hy] at hc
  cases Option.some.inj hc
  exact ha

/-- `takeIdent` fails on a leading quote. -/
theorem takeIdent_sq (x : Str) : takeIdent (sqc :: x) = none := by
  unfold takeIdent
  dsimp only
  rw [if_neg (by decide)]

/-- `skipSp` passes over the four-space indent. -/
theorem skipSp_indent (y : Str) : skipSp ((("    ").data) ++ y) = skipSp y := by
  unfold skipSp
  exact dropWhile_append_all _ _ _ (by decide)

/-- A join starting with a non-empty part is non-empty. -/
theorem joinSep_cons_ne_nil (sep p : Str) (ps : List Str) (hp : ¬ p = []) :
    ¬ joinSep sep (p :: ps) = [] := by
  cases ps with
  | nil => simpa [joinSep] using hp
  | cons q more => simp [joinSep, hp]

/-- `parseAssign` on a generated `__tablename__` line. -/
theorem parseAssign_tn (n : Str) (hn : isIdent n = true) :
    parseAssign (tablenameLine n)
      = some ((("__tablename__").data), .const (pyLower n)) := by
  have hbody : ¬ sqc ∈ pyLower n :=
    fun hm => absurd (pyLower_ident_mem hn sqc hm) (by decide)
  have hshape : tablenameLine n
      = (("    ").data) ++ ((("__tablename__").data) ++
          (((" = ").data) ++ (sqc :: (pyLower n ++ sqc :: [])))) := rfl
  unfold parseAssign
  rw [hshape, skipSp_indent, skipSp_ident_lead _ (by decide),
    takeIdent_append (((" = ").data) ++ (sqc :: (pyLower n ++ sqc :: [])))
      (by decide) (headNotIdent_of_concrete ' ' rfl (by decide))]
  dsimp only
  rw [if_neg (by decide)]
  rw [show skipSp (((" = ").data) ++ (sqc :: (pyLower n ++ sqc :: [])))
      = '=' :: (' ' :: (sqc :: (pyLower n ++ sqc :: []))) from rfl]
  dsimp only
  rw [if_pos rfl]
  rw [show skipSp (' ' :: (sqc :: (pyLower n ++ sqc :: [])))
      = sqc :: (pyLower n ++ sqc :: []) from rfl]
  unfold parseExpr
  rw [takeIdent_sq, parseAtom_string (pyLower n) [] hbody]
  dsimp only
  rw [show skipSp [] = [] from rfl, if_pos rfl]

/-- `parseAssign` on a generated column declaration line. -/
theorem parseAssign_col (c : RCol) (hwf : RCol.wf c = true) :
    parseAssign (colBodyLine (RCol.dict c)) = some (colStmt c) := by
  have hw := hwf
  simp only [RCol.wf, Bool.and_eq_true, decide_eq_true_eq] at hw
  obtain ⟨⟨⟨hname, hnotn⟩, htype⟩, hfr⟩ := hw
  have hnameIdent : isIdent c.name = true := by
    simp only [identNoKw, Bool.and_eq_true] at hname
    exact hname.1
  have hnameKw : ¬ c.name ∈ pyKeywords := by
    simp only [identNoKw, Bool.and_eq_true, decide_eq_true_eq] at hname
    exact hname.2
  cases hfr2 : c.frags with
  | nil =>
    have hattrs : RCol.attrs c = [] := by
      simp [RCol.attrs, hfr2, joinSep]
    have hshape : colBodyLine (RCol.dict c)
        = (("    ").data) ++ (c.name ++ (((" = Column(").data) ++
            (c.type ++ [')']))) := by
      simp [colBodyLine, RCol.dict, hattrs, List.append_assoc]
    rw [hshape]
    unfold parseAssign
    rw [skipSp_indent, skipSp_ident_lead _ hnameIdent,
      takeIdent_append (((" = Column(").data) ++ (c.type ++ [')']))
        hnameIdent (headNotIdent_of_concrete ' ' rfl (by decide))]
    dsimp only
    rw [if_neg hnameKw]
    rw [show skipSp (((" = Column(").data) ++ (c.type ++ [')']))
        = '=' :: (((" Column(").data) ++ (c.type ++ [')'])) from rfl]
    dsimp only
    rw [if_pos rfl]
    rw [show skipSp (((" Column(").data) ++ (c.type ++ [')']))
        = (("Column").data) ++ ('(' :: (c.type ++ [')'])) from rfl]
    rw [parseExpr_column_gen (c.type ++ [')']) [.name c.type] []
      (parseArgsLoop_call_nil c.type htype _ (by simp))]
    dsimp only
    unfold colStmt
    rw [hfr2]
    rfl
  | cons f rest =>
    have hwfrags : (f :: rest).all wfFrag = true := by rw [← hfr2]; exact hfr
    have hjne : ¬ joinSep ((", ").data) ((f :: rest).map fragStr) = [] := by
      exact joinSep_cons_ne_nil _ _ _ (fragStr_ne_nil f)
    have hjne2 : ¬ joinSep [',', ' '] (fragStr f :: List.map fragStr rest) = [] :=
      joinSep_cons_ne_nil _ _ _ (fragStr_ne_nil f)
    have hattrs : RCol.attrs c
        = joinSep ((", ").data) ((f :: rest).map fragStr) := by
      rw [RCol.attrs, hfr2]
    have hshape : colBodyLine (RCol.dict c)
        = (("    ").data) ++ (c.name ++ (((" = Column(").data) ++
            (c.type ++ (((", ").data) ++
              (joinSep ((", ").data) ((f :: rest).map fragStr) ++ [')']))))) := by
      simp [colBodyLine, RCol.dict, hattrs, hjne, hjne2, List.append_assoc]
    rw [hshape]
    unfold parseAssign
    rw [skipSp_indent, skipSp_ident_lead _ hnameIdent,
      takeIdent_append
        (((" = Column(").data) ++ (c.type ++ (((", ").data) ++
          (joinSep ((", ").data) ((f :: rest).map fragStr) ++ [')']))))
        hnameIdent (headNotIdent_of_concrete ' ' rfl (by decide))]
    dsimp only
    rw [if_neg hnameKw]
    rw [show skipSp (((" = Column(").data) ++ (c.type ++ (((", ").data) ++
          (joinSep ((", ").data) ((f :: rest).map fragStr) ++ [')']))))
        = '=' :: (((" Column(").data) ++ (c.type ++ (((", ").data) ++
          (joinSep ((", ").data) ((f :: rest).map fragStr) ++ [')'])))) from rfl]
    dsimp only
    rw [if_pos rfl]
    rw [show skipSp (((" Column(").data) ++ (c.type ++ (((", ").data) ++
          (joinSep ((", ").data) ((f :: rest).map fragStr) ++ [')']))))
        = (("Column").data) ++ ('(' :: (c.type ++ (',' :: (' ' ::
          (joinSep ((", ").data) ((f :: rest).map fragStr) ++ [')'])))))
        from rfl]
    rw [parseExpr_column_gen
      (c.type ++ (',' :: (' ' ::
        (joinSep ((", ").data) ((f :: rest).map fragStr) ++ [')']))))
      [.name c.type] ((f :: rest).map (fun kv => (kv.1, expectedVal kv.2)))
      (parseArgsLoop_call_cons c.type (f :: rest) htype hwfrags (by simp) _
        (by
          have hj := joinSep_length_ge ((", ").data) ((f :: rest).map fragStr)
            (fun p hp => by
              obtain ⟨kv, _, rfl⟩ := List.mem_map.mp hp
              exact fragStr_ne_nil kv)
          simp only [List.length_append, List.length_cons, List.length_map]
            at hj ⊢
          omega))]
    dsimp only
    unfold colStmt
    rw [hfr2]
    rfl

/-- `parseClassHeader` on a generated class header. -/
theorem parseClassHeader_line (n : Str) (hn : identNoKw n = true) :
    parseClassHeader (classHeaderLine n) = some n := by
  simp only [identNoKw, Bool.and_eq_true, decide_eq_true_eq] at hn
  unfold parseClassHeader classHeaderLine
  rw [if_pos (by
    rw [List.isPrefixOf_iff_prefix]
    exact List.prefix_append _ _)]
  rw [List.append_assoc, show (6 : Nat) = (("class ").data).length from rfl,
    List.drop_left,
    takeIdent_append ((("(Base):").data)) hn.1
      (headNotIdent_of_concrete '(' rfl (by decide))]
  dsimp only
  rw [if_neg hn.2, if_pos rfl]

end AlembicMig

namespace AlembicMig

/-! ### Module-level parsing of a generated file -/

/-- One `Option`-monad fold step whose action succeeds. -/
theorem foldlM_step {σ α : Type} (f : σ → α → Option σ) (b b' : σ) (a : α)
    (l : List α) (h : f b a = some b') :
    List.foldlM f b (a :: l) = List.foldlM f b' l := by
  show f b a >>= (fun s => List.foldlM f s l) = _
  rw [h]
  rfl

/-- A string with a non-whitespace member has a non-empty `strip`. -/
theorem strip_ne_nil_of_mem {s : Str} {a : Char} (ha : a ∈ s)
    (hsp : pyIsSpace a = false) : ¬ strip s = [] := by
  intro h
  have h1 : (lstrip s).reverse.dropWhile pyIsSpace = [] := by
    have h0 := congrArg List.reverse h
    simpa [strip, rstrip] using h0
  have h3 : ∀ x ∈ lstrip s, pyIsSpace x = true := by
    intro x hx
    exact List.dropWhile_eq_nil_iff.mp h1 x (List.mem_reverse.mpr hx)
  have h4 : pyIsSpace a = true := by
    have hx := ha
    rw [← List.takeWhile_append_dropWhile (p := pyIsSpace) (l := s)] at hx
    rcases List.mem_append.mp hx with h5 | h6
    · exact List.mem_takeWhile_imp h5
    · exact h3 a h6
  rw [h4] at hsp
  cases hsp

/-- The generated class header has a non-empty `strip`. -/
theorem strip_header_ne (n : Str) : ¬ strip (classHeaderLine n) = [] :=
  strip_ne_nil_of_mem
    (a := 'c')
    (List.mem_append.mpr (Or.inl (List.mem_append.mpr (Or.inl (by decide)))))
    (by decide)

/-- The generated `__tablename__` line has a non-empty `strip`. -/
theorem strip_tn_ne (n : Str) : ¬ strip (tablenameLine n) = [] :=
  strip_ne_nil_of_mem
    (a := '_')
    (List.mem_append.mpr (Or.inl (List.mem_append.mpr (Or.inl
      (List.mem_append.mpr (Or.inl (by decide)))))))
    (by decide)

/-- A generated column line has a non-empty `strip`. -/
theorem strip_colBody_ne (d : Str × Str × Str) : ¬ strip (colBodyLine d) = [] :=
  strip_ne_nil_of_mem
    (a := ')')
    (List.mem_append.mpr (Or.inr (by decide)))
    (by decide)

/-- `parseModuleStep` skips an empty line. -/
theorem parseModuleStep_blank (st : PMState) : parseModuleStep st [] = some st := rfl

/-- `parseModuleStep` on a generated class header closes the open class and
opens a new one. -/
theorem parseModuleStep_header (st : PMState) (n : Str)
    (hn : identNoKw n = true) :
    parseModuleStep st (classHeaderLine n)
      = some (st.1 ++ st.2.toList, some ⟨n, []⟩) := by
  have hcons : classHeaderLine n
      = 'c' :: (((("lass ").data) ++ n) ++ (("(Base):").data)) := rfl
  unfold parseModuleStep
  rw [if_neg (strip_header_ne n), hcons]
  dsimp only
  rw [if_neg (by decide), ← hcons, parseClassHeader_line n hn]

/-- `parseModuleStep` on an indented assignment extends the open class. -/
theorem parseModuleStep_body (acc : List PyClass) (nm : Str)
    (body : List (Str × PyExpr)) (l : Str) (a : Str × PyExpr)
    (hl : ∃ t, l = ' ' :: t) (hne : ¬ strip l = [])
    (hpa : parseAssign l = some a) :
    parseModuleStep (acc, some ⟨nm, body⟩) l
      = some (acc, some ⟨nm, body ++ [a]⟩) := by
  obtain ⟨t, rfl⟩ := hl
  unfold parseModuleStep
  rw [if_neg hne]
  dsimp only
  rw [if_pos rfl, hpa]
  rfl

end AlembicMig

namespace AlembicMig

/-- Folding the parser over the generated column lines appends the column
statements to the open class body. -/
theorem foldlM_colLines (acc : List PyClass) (nm : Str)
    (body : List (Str × PyExpr)) (cols : List RCol)
    (hwf : cols.all RCol.wf = true) :
    List.foldlM parseModuleStep (acc, some ⟨nm, body⟩)
        ((cols.map RCol.dict).map colBodyLine)
      = some (acc, some ⟨nm, body ++ cols.map colStmt⟩) := by
  induction cols generalizing body with
  | nil => simp [List.foldlM_nil]
  | cons col rest ih =>
    have hal : RCol.wf col = true ∧ rest.all RCol.wf = true := by
      simpa [List.all_cons, Bool.and_eq_true] using hwf
    rw [List.map_cons, List.map_cons,
      foldlM_step _ _ _ _ _
        (parseModuleStep_body acc nm body (colBodyLine (RCol.dict col))
          (colStmt col) ⟨_, rfl⟩ (strip_colBody_ne _)
          (parseAssign_col col hal.1)),
      ih (body ++ [colStmt col]) hal.2]
    simp

/-- Folding the parser over one generated class block closes the open class
and leaves the new class open with exactly its generated statements. -/
theorem foldlM_chunk (st : PMState) (c : RClass) (hwf : RClass.wf c = true) :
    List.foldlM parseModuleStep st (chunkLogical c)
      = some (st.1 ++ st.2.toList, some (pyClassOf c)) := by
  have hk : identNoKw c.name = true := by
    have h := hwf
    simp only [RClass.wf, Bool.and_eq_true] at h
    exact h.1
  have hi : isIdent c.name = true := by
    have h := hk
    simp only [identNoKw, Bool.and_eq_true] at h
    exact h.1
  have hcols : c.cols.all RCol.wf = true := by
    have h := hwf
    simp only [RClass.wf, Bool.and_eq_true] at h
    exact h.2
  show List.foldlM parseModuleStep st
      ([] :: [] :: classHeaderLine c.name :: tablenameLine c.name ::
        (c.cols.map RCol.dict).map colBodyLine) = _
  rw [foldlM_step _ _ _ _ _ (parseModuleStep_blank st),
    foldlM_step _ _ _ _ _ (parseModuleStep_blank st),
    foldlM_step _ _ _ _ _ (parseModuleStep_header st c.name hk),
    foldlM_step _ _ _ _ _
      (parseModuleStep_body (st.1 ++ st.2.toList) c.name []
        (tablenameLine c.name)
        ((("__tablename__").data), .const (pyLower c.name))
        ⟨_, rfl⟩ (strip_tn_ne c.name) (parseAssign_tn c.name hi)),
    foldlM_colLines _ _ _ _ hcols]
  simp [pyClassOf]

end AlembicMig

namespace AlembicMig

/-- Folding the parser over all generated class blocks. -/
theorem foldlM_chunks (clss : List RClass) (st : PMState)
    (hwf : clss.all RClass.wf = true) :
    (List.foldlM parseModuleStep st ((clss.map chunkLogical).flatten)).map
        (fun r => r.1 ++ r.2.toList)
      = some (st.1 ++ st.2.toList ++ clss.map pyClassOf) := by
  induction clss generalizing st with
  | nil => simp [List.foldlM_nil]
  | cons c rest ih =>
    have hal : RClass.wf c = true ∧ rest.all RClass.wf = true := by
      simpa [List.all_cons, Bool.and_eq_true] using hwf
    rw [List.map_cons, List.flatten_cons, List.foldlM_append,
      foldlM_chunk st c hal.1]
    have h2 := ih ((st.1 ++ st.2.toList, some (pyClassOf c)) : PMState) hal.2
    rw [show ((some (st.1 ++ st.2.toList, some (pyClassOf c)) : Option PMState)
          >>= fun b => List.foldlM parseModuleStep b
            ((rest.map chunkLogical).flatten))
        = List.foldlM parseModuleStep
            ((st.1 ++ st.2.toList, some (pyClassOf c)) : PMState)
            ((rest.map chunkLogical).flatten) from rfl, h2]
    simp

/-- The trailing empty line left by the final split does not change the
fold result. -/
theorem foldlM_trailing_blank (A : List Str) (st : PMState) :
    List.foldlM parseModuleStep st (A ++ [[]])
      = List.foldlM parseModuleStep st A := by
  rw [List.foldlM_append]
  cases h : List.foldlM parseModuleStep st A with
  | none => rfl
  | some st2 =>
    show (some st2 >>= fun b => List.foldlM parseModuleStep b [[]]) = _
    rw [show (some st2 >>= fun b => List.foldlM parseModuleStep b [[]])
        = List.foldlM parseModuleStep st2 [[]] from rfl]
    rw [foldlM_step _ _ _ _ _ (parseModuleStep_blank st2)]
    rfl

/-- A generated physical column line is its logical line plus a newline. -/
theorem columnLine_eq (d : Str × Str × Str) :
    columnLine d = colBodyLine d ++ [nlc] := by
  simp [columnLine, colBodyLine, List.append_assoc]

/-- The generated block text is the newline-join of its logical lines. -/
theorem chunkText_eq (c : RClass) :
    chunkText c = ((chunkLogical c).map (fun l => l ++ [nlc])).flatten := by
  simp [chunkText, writeLines, newTableLines, chunkLogical, columnLine_eq,
    classHeaderLine, tablenameLine, List.map_map, Function.comp,
    List.append_assoc]
  refine congrArg List.flatten (List.map_congr_left ?_)
  intro col _
  simp [columnLine_eq]

/-- A generated model file text is the newline-join of all its logical
lines. -/
theorem fileText_nl (clss : List RClass) :
    fileTextOf clss
      = (((clss.map chunkLogical).flatten).map (fun l => l ++ [nlc])).flatten := by
  induction clss with
  | nil => rfl
  | cons c rest ih =>
    simp only [fileTextOf, List.map_cons, List.flatten_cons] at ih ⊢
    rw [chunkText_eq, ih, List.map_append, List.flatten_append]

/-- Splitting the newline-join of newline-free lines recovers the lines,
plus one empty trailing segment. -/
theorem splitOnChar_flatten_nl (L : List Str) (h : ∀ l ∈ L, ¬ nlc ∈ l) :
    splitOnChar nlc ((L.map (fun l => l ++ [nlc])).flatten) = L ++ [[]] := by
  induction L with
  | nil => rfl
  | cons l rest ih =>
    have hl : ¬ nlc ∈ l := h l (List.mem_cons_self l rest)
    have hrest : ∀ x ∈ rest, ¬ nlc ∈ x :=
      fun x hx => h x (List.mem_cons_of_mem l hx)
    have hflat : ((l ++ [nlc]) :: rest.map (fun x => x ++ [nlc])).flatten
        = l ++ (nlc :: (rest.map (fun x => x ++ [nlc])).flatten) := by
      rw [List.flatten_cons, List.append_assoc]
      rfl
    have hihsplit : splitCh nlc ((rest.map (fun x => x ++ [nlc])).flatten)
        = (((rest ++ [[]]).headD []), (rest ++ [[]]).tail) := by
      have h2 := ih hrest
      unfold splitOnChar at h2
      cases hres : rest ++ [[]] with
      | nil => cases rest <;> cases hres
      | cons y ys =>
        rw [hres] at h2
        injection h2 with ha hb
        exact Prod.ext ha hb
    show (splitCh nlc ((l ++ [nlc]) :: rest.map (fun x => x ++ [nlc])).flatten).1
        :: (splitCh nlc ((l ++ [nlc]) :: rest.map (fun x => x ++ [nlc])).flatten).2
        = (l :: rest) ++ [[]]
    rw [hflat, splitCh_append_no_sep _ hl]
    rw [show splitCh nlc (nlc :: (rest.map (fun x => x ++ [nlc])).flatten)
        = ([], (splitCh nlc ((rest.map (fun x => x ++ [nlc])).flatten)).1
            :: (splitCh nlc ((rest.map (fun x => x ++ [nlc])).flatten)).2) from by
      show (if nlc = nlc then _ else _) = _
      rw [if_pos rfl]]
    rw [hihsplit]
    cases hres : rest ++ [[]] with
    | nil => cases rest <;> cases hres
    | cons y ys => simpa using hres.symm

end AlembicMig

namespace AlembicMig

/-- The attribute string of a well-formed column has no newline. -/
theorem attrs_no_nl (col : RCol) (h : col.frags.all wfFrag = true) :
    ¬ nlc ∈ RCol.attrs col := by
  intro hm
  rcases mem_joinSep hm with hsep | ⟨p, hp, hap⟩
  · exact absurd hsep (by decide)
  · obtain ⟨kv, hkv, rfl⟩ := List.mem_map.mp hp
    have hwf : wfFrag kv = true := by
      have h2 := List.all_eq_true.mp h kv hkv
      simpa using h2
    simp only [wfFrag, identNoKw, wfVal, Bool.and_eq_true] at hwf
    simp only [fragStr] at hap
    rcases List.mem_append.mp hap with h1 | h2
    · exact ident_no_nl hwf.1.1 h1
    · rcases List.mem_cons.mp h2 with h3 | h4
      · exact absurd h3 (by decide)
      · exact ident_no_nl hwf.2.1 h4

/-- No logical line of a well-formed generated class block contains a
newline. -/
theorem chunkLines_no_nl (c : RClass) (hwf : RClass.wf c = true) :
    ∀ l ∈ chunkLogical c, ¬ nlc ∈ l := by
  have hk : isIdent c.name = true := by
    have h := hwf
    simp only [RClass.wf, identNoKw, Bool.and_eq_true] at h
    exact h.1.1
  intro l hl
  simp only [chunkLogical, List.cons_append, List.nil_append,
    List.mem_cons] at hl
  rcases hl with rfl | rfl | rfl | rfl | hmem
  · intro hm; cases hm
  · intro hm; cases hm
  · intro hm
    rcases List.mem_append.mp hm with h1 | h2
    · rcases List.mem_append.mp h1 with h3 | h4
      · exact absurd h3 (by decide)
      · exact ident_no_nl hk h4
    · exact absurd h2 (by decide)
  · intro hm
    rcases List.mem_append.mp hm with h1 | h2
    · rcases List.mem_append.mp h1 with h3 | h4
      · rcases List.mem_append.mp h3 with h5 | h6
        · exact absurd h5 (by decide)
        · exact absurd h6 (by decide)
      · exact absurd (pyLower_ident_mem hk nlc h4) (by decide)
    · exact absurd h2 (by decide)
  · obtain ⟨d, hd, rfl⟩ := List.mem_map.mp hmem
    obtain ⟨col, hcol, rfl⟩ := List.mem_map.mp hd
    have hcw : RCol.wf col = true := by
      have h := hwf
      simp only [RClass.wf, Bool.and_eq_true] at h
      have h2 := List.all_eq_true.mp h.2 col hcol
      simpa using h2
    simp only [RCol.wf, identNoKw, Bool.and_eq_true] at hcw
    intro hm
    simp only [colBodyLine, RCol.dict] at hm
    rcases List.mem_append.mp hm with h1 | h2
    · rcases List.mem_append.mp h1 with h3 | h4
      · rcases List.mem_append.mp h3 with h5 | h6
        · rcases List.mem_append.mp h5 with h7 | h8
          · rcases List.mem_append.mp h7 with h9 | h10
            · exact absurd h9 (by decide)
            · exact ident_no_nl hcw.1.1.1.1 h10
          · exact absurd h8 (by decide)
        · exact ident_no_nl hcw.1.2.1 h6
      · by_cases h : RCol.attrs col = []
        · rw [if_pos h] at h4; cases h4
        · rw [if_neg h] at h4
          rcases List.mem_append.mp h4 with h5 | h6
          · exact absurd h5 (by decide)
          · exact attrs_no_nl col hcw.2 h6
    · exact absurd h2 (by decide)

end AlembicMig

namespace AlembicMig

/-- `parseModule` recovers exactly the generated classes from a generated
model file text. -/
theorem parseModule_fileText (clss : List RClass)
    (hwf : clss.all RClass.wf = true) :
    parseModule (splitOnChar nlc (fileTextOf clss))
      = some (clss.map pyClassOf) := by
  have hnonl : ∀ l ∈ (clss.map chunkLogical).flatten, ¬ nlc ∈ l := by
    intro l hl
    obtain ⟨ls, hls, hmem⟩ := List.mem_flatten.mp hl
    obtain ⟨c, hc, rfl⟩ := List.mem_map.mp hls
    have hcw : RClass.wf c = true := by
      have h2 := List.all_eq_true.mp hwf c hc
      simpa using h2
    exact chunkLines_no_nl c hcw l hmem
  unfold parseModule
  rw [fileText_nl, splitOnChar_flatten_nl _ hnonl, foldlM_trailing_blank]
  have h := foldlM_chunks clss (([], none) : PMState) hwf
  simpa using h

end AlembicMig

namespace AlembicMig

/-- The per-statement column extraction inside `tablesOfModule`
(`main.py` lines 1198-1232), as a named function. -/
def tmCol (st : Str × PyExpr) : Option PColumn :=
  if st.1 = (("__tablename__").data) then none
  else
    match st.2 with
    | .call f args kws =>
      let col_type :=
        if f = (("Column").data) then
          (args.findSome? (fun a =>
            match a with
            | .name id => some id
            | _ => none)).getD (("Column").data)
        else f
      some { name := st.1, type := col_type,
             attributes := joinSep ((", ").data)
               (kws.map (fun kw => kw.1 ++ '=' :: renderKwValue kw.2)) }
    | _ =>
      some { name := st.1, type := ("UnknownType").data,
             attributes := [] }

/-- The per-class inventory entry inside `tablesOfModule`, as a named
function. -/
def tmEntry (cls : PyClass) : PTable :=
  { table_name := pyLower cls.name, columns := cls.body.filterMap tmCol }

/-- `tablesOfModule` is the map of `tmEntry`. -/
theorem tablesOfModule_eq (m : List PyClass) :
    tablesOfModule m = m.map tmEntry := rfl

/-- The rendering of the parsed value of a well-formed atom is the atom's
own spelling. -/
theorem renderKwValue_expectedVal (v : Str) :
    renderKwValue (expectedVal v) = v := by
  unfold expectedVal
  by_cases h : v ∈ constNames
  · rw [if_pos h]; rfl
  · rw [if_neg h]; rfl

/-- The `__tablename__` statement contributes no inventory column. -/
theorem tmCol_tn (e : PyExpr) : tmCol ((("__tablename__").data), e) = none := by
  unfold tmCol
  dsimp only
  rw [if_pos rfl]

/-- The statement parsed from a generated column line contributes exactly
the requested column. -/
theorem tmCol_colStmt (col : RCol)
    (hne : ¬ col.name = (("__tablename__").data)) :
    tmCol (colStmt col) = some ⟨col.name, col.type, RCol.attrs col⟩ := by
  unfold tmCol colStmt
  dsimp only
  rw [if_neg hne, if_pos rfl]
  simp [RCol.attrs, List.map_map, renderKwValue_expectedVal, fragStr,
    List.findSome?]
  refine congrArg (joinSep [',', ' ']) (List.map_congr_left ?_)
  intro kv _
  simp [renderKwValue_expectedVal, fragStr]

/-- Extracting inventory columns from the generated column statements. -/
theorem filterMap_tmCol (cols : List RCol) (h : cols.all RCol.wf = true) :
    (cols.map colStmt).filterMap tmCol
      = cols.map (fun col => PColumn.mk col.name col.type (RCol.attrs col)) := by
  induction cols with
  | nil => rfl
  | cons a l ih =>
    have hal : RCol.wf a = true ∧ l.all RCol.wf = true := by
      simpa [List.all_cons, Bool.and_eq_true] using h
    have hne : ¬ a.name = (("__tablename__").data) := by
      have h2 := hal.1
      simp only [RCol.wf, Bool.and_eq_true, decide_eq_true_eq] at h2
      exact h2.1.1.2
    rw [List.map_cons, List.filterMap_cons, tmCol_colStmt a hne,
      List.map_cons, ih hal.2]

/-- The inventory entry of the class parsed from a generated block is
exactly the requested table. -/
theorem tmEntry_pyClassOf (c : RClass) (hwf : RClass.wf c = true) :
    tmEntry (pyClassOf c) = tableOf c := by
  have hcols : c.cols.all RCol.wf = true := by
    have h := hwf
    simp only [RClass.wf, Bool.and_eq_true] at h
    exact h.2
  unfold tmEntry pyClassOf tableOf
  dsimp only
  rw [List.filterMap_cons, tmCol_tn, filterMap_tmCol c.cols hcols]

/-- The inventory of the classes parsed from generated blocks. -/
theorem tablesOfModule_pyClassOf (clss : List RClass)
    (h : clss.all RClass.wf = true) :
    tablesOfModule (clss.map pyClassOf) = clss.map tableOf := by
  rw [tablesOfModule_eq, List.map_map]
  refine List.map_congr_left ?_
  intro x hx
  have hxw : RClass.wf x = true := by
    have h2 := List.all_eq_true.mp h x hx
    simpa using h2
  exact tmEntry_pyClassOf x hxw

end AlembicMig

namespace AlembicMig

/-- Dropping a `takeWhile` prefix leaves the `dropWhile` suffix. -/
theorem drop_takeWhile_length (p : Char → Bool) (s : Str) :
    s.drop (s.takeWhile p).length = s.dropWhile p := by
  induction s with
  | nil => rfl
  | cons c r ih =>
    cases hc : p c with
    | true => simp [List.takeWhile_cons, List.dropWhile_cons, hc, ih]
    | false => simp [List.takeWhile_cons, List.dropWhile_cons, hc]

/-- The tail form of the previous lemma, as used by `readLinesAux`. -/
theorem tail_drop_takeWhile (p : Char → Bool) (c : Char) (r : Str) :
    r.drop ((c :: r).takeWhile p).length = ((c :: r).dropWhile p).tail := by
  cases hc : p c with
  | false => simp [List.takeWhile_cons, List.dropWhile_cons, hc]
  | true =>
    simp only [List.takeWhile_cons, List.dropWhile_cons, hc, if_true,
      List.length_cons]
    rw [← List.tail_drop, drop_takeWhile_length]

/-- When a newline occurs, the suffix after the line head starts with it. -/
theorem dropWhile_nl_head {s : Str} (h : nlc ∈ s) :
    s.dropWhile (fun x => ¬ x = nlc)
      = nlc :: (s.dropWhile (fun x => ¬ x = nlc)).tail := by
  induction s with
  | nil => cases h
  | cons c r ih =>
    by_cases hc : c = nlc
    · subst hc
      simp [List.dropWhile_cons]
    · have hr : nlc ∈ r := by
        rcases List.mem_cons.mp h with h1 | h1
        · exact absurd h1.symm hc
        · exact h1
      simp only [List.dropWhile_cons]
      rw [if_pos (by simp [hc])]
      exact ih hr

/-- A newline-free string is its own line head. -/
theorem takeWhile_eq_self_no_nl {s : Str} (h : ¬ nlc ∈ s) :
    s.takeWhile (fun x => ¬ x = nlc) = s := by
  have hall : ∀ a ∈ s, (fun x => decide (¬ x = nlc)) a = true := by
    intro a ha
    simp only [decide_eq_true_eq]
    exact fun hEq => h (hEq ▸ ha)
  have h2 := takeWhile_append_all (fun x => ¬ x = nlc) s [] hall
  simpa using h2

/-- One `readlines` line followed by the rest of the text reassembles the
text. -/
theorem line_decomp (c : Char) (r : Str) :
    ((c :: r).takeWhile (fun x => ¬ x = nlc)
        ++ (if nlc ∈ (c :: r) then [nlc] else []))
      ++ r.drop ((c :: r).takeWhile (fun x => ¬ x = nlc)).length = c :: r := by
  rw [tail_drop_takeWhile]
  by_cases h : nlc ∈ (c :: r)
  · rw [if_pos h]
    have hs := List.takeWhile_append_dropWhile
      (p := fun x => ¬ x = nlc) (l := c :: r)
    rw [dropWhile_nl_head h] at hs
    rw [List.append_assoc]
    rw [show [nlc] ++ ((c :: r).dropWhile (fun x => ¬ x = nlc)).tail
        = nlc :: ((c :: r).dropWhile (fun x => ¬ x = nlc)).tail from rfl]
    exact hs
  · have hall : ∀ x ∈ (c :: r), (fun x => decide (¬ x = nlc)) x = true := by
      intro a ha
      simp only [decide_eq_true_eq]
      exact fun hEq => h (hEq ▸ ha)
    rw [if_neg h, List.append_nil, takeWhile_eq_self_no_nl h,
      List.dropWhile_eq_nil_iff.mpr hall]
    simp

/-- `writelines` of `readlines` is the identity on the text, at any fuel. -/
theorem writeLines_readLinesAux (fuel : Nat) (s : Str) :
    writeLines (readLinesAux fuel s) = s := by
  induction fuel generalizing s with
  | zero =>
    cases s with
    | nil => rfl
    | cons c r => simp [readLinesAux, writeLines]
  | succ fuel ih =>
    cases s with
    | nil => rfl
    | cons c r =>
      simp only [writeLines] at ih
      simp only [readLinesAux, writeLines, List.flatten_cons, ih]
      exact line_decomp c r

/-- `writelines` of `readlines` is the identity on the text. -/
theorem writeLines_readLines (s : Str) : writeLines (readLines s) = s :=
  writeLines_readLinesAux s.length s

end AlembicMig

namespace AlembicMig

/-- A generated file extended by one block is the generated file of the
extended class list. -/
theorem fileTextOf_append (clss : List RClass) (c : RClass) :
    fileTextOf (clss ++ [c]) = fileTextOf clss ++ chunkText c := by
  simp [fileTextOf, List.map_append, List.flatten_append]

/-- A successful `add_table_to_models` appends exactly the generated block
to the file text. -/
theorem add_table_text_ok (text tn : Str) (cols : List (Str × Str × Str))
    (newText : Str) (h : add_table_text text tn cols = .ok newText) :
    newText = text ++ writeLines (newTableLines tn cols) := by
  unfold add_table_text add_table_to_models at h
  by_cases hc : (readLines text).any
      (fun l => containsSub ((("class ").data) ++ tn) l) = true
  · rw [if_pos hc] at h
    dsimp only at h
    cases h
  · rw [if_neg hc] at h
    dsimp only at h
    injection h with h2
    rw [← h2]
    unfold writeLines
    rw [List.flatten_append]
    have h3 := writeLines_readLines text
    simp only [writeLines] at h3
    rw [h3]

end AlembicMig

namespace AlembicMig

/-- C1 (counterexample): a `CreateTableRequest` that passes full validation
(`users`, a `primary_key=True` column and a column with the allowed-key,
empty-value attribute `default=`) is added to an empty model file by
`add_table_to_models`, yet `parse_models_file` then fails on the generated
`Column(Integer, default=)` statement (`ast.parse` raises a
`SyntaxError`), so the resulting inventory does not contain the new table
with its columns, contradicting the unconditional round-trip of the
claim. -/
theorem add_table_roundtrip_syntax_error_counterexample :
    validateCreateTableRequest (("users").data)
        [⟨(("id").data), (("integer").data),
          some (AttrInput.str (("primary_key=True").data))⟩,
         ⟨(("x").data), (("integer").data),
          some (AttrInput.str (("default=").data))⟩]
      = some ((("Users").data),
          [⟨(("id").data), (("Integer").data),
            some (("primary_key=True").data)⟩,
           ⟨(("x").data), (("Integer").data), some (("default=").data)⟩])
    ∧ add_table_text [] (("Users").data)
        [((("id").data), (("Integer").data), (("primary_key=True").data)),
         ((("x").data), (("Integer").data), (("default=").data))]
      = .ok (writeLines (newTableLines (("Users").data)
          [((("id").data), (("Integer").data), (("primary_key=True").data)),
           ((("x").data), (("Integer").data), (("default=").data))]))
    ∧ parse_models_file_text (writeLines (newTableLines (("Users").data)
          [((("id").data), (("Integer").data), (("primary_key=True").data)),
           ((("x").data), (("Integer").data), (("default=").data))]))
      = none :=
  ⟨by decide, by rfl, by rfl⟩

/-- C1 (amended): for a model file consisting of well-formed generated
class blocks and a well-formed new class (plain-identifier names and
types, attribute fragments `key=value` with plain identifier or
`True`/`False`/`None` values), a successful `add_table_to_models` followed
by `parse_models_file` yields exactly the previous inventory extended by
the new table: name lowercased, columns in order with names, types and the
full attribute strings preserved. -/
theorem add_table_roundtrip_parse (prior : List RClass) (c : RClass)
    (hprior : prior.all RClass.wf = true) (hc : RClass.wf c = true)
    (newText : Str)
    (hadd : add_table_text (fileTextOf prior) c.name (c.cols.map RCol.dict)
      = .ok newText) :
    parse_models_file_text newText
      = some (prior.map tableOf ++ [tableOf c]) := by
  have hnew : newText = fileTextOf (prior ++ [c]) := by
    rw [add_table_text_ok _ _ _ _ hadd, fileTextOf_append]
    rfl
  have hwfall : (prior ++ [c]).all RClass.wf = true := by
    simp only [List.all_append, List.all_cons, List.all_nil, hprior, hc,
      Bool.and_true, Bool.true_and]
  rw [hnew]
  unfold parse_models_file_text
  rw [parseModule_fileText (prior ++ [c]) hwfall, Option.map_some',
    tablesOfModule_pyClassOf (prior ++ [c]) hwfall]
  simp

/-- The request class used by the round-trip witness. -/
def usersR : RClass :=
  ⟨(("Users").data),
   [⟨(("id").data), (("Integer").data),
     [((("primary_key").data), (("True").data))]⟩,
    ⟨(("email").data), (("String").data), []⟩]⟩

/-- The round-trip theorem applied to a concrete request on an empty
model file. -/
theorem add_table_roundtrip_parse_witness :
    add_table_text (fileTextOf []) (("Users").data)
        (usersR.cols.map RCol.dict) = .ok (chunkText usersR)
    ∧ parse_models_file_text (chunkText usersR) = some [tableOf usersR] := by
  constructor
  · rfl
  · have h := add_table_roundtrip_parse [] usersR (by decide) (by decide)
      (chunkText usersR) (by rfl)
    simpa using h

end AlembicMig
